import Mathlib

/-!
Verification of the change-detection and rehearsal-orchestration engine of
openshift/ci-operator-prowgen against its natural-language specification.

The Go sources are shallowly embedded as pure Lean functions:
  - pkg/diffs (GetChangedCiopConfigs, GetChangedPresubmits,
    GetPresubmitsForCiopConfigs),
  - pkg/rehearse/jobs.go (filterJobs/filterJob, makeRehearsalPresubmit,
    inlineCiOpConfig, replaceCMTemplateName, replaceClusterProfiles,
    configureJob, ExecuteJobs/submitRehearsals/waitForJobs).

Modelling conventions:
  - Go maps (map[string]T) are modelled as association lists with unique keys;
    indexing a missing key yields the zero value, mirrored by explicit
    zero-value defaults.
  - Places where the Go code would panic at runtime (indexing an empty slice,
    dereferencing a nil pointer) are modelled by a distinguished outcome
    (Option.none or a dedicated constructor) rather than by a total function.
  - The Kubernetes client is abstracted: job creation is a function argument,
    the watch stream is a list of received objects, and the calls made to the
    backend are recorded in an explicit trace.
  - String helpers mirror the Go strings package (TrimPrefix, TrimSuffix,
    Replace) and are defined over character lists so that concrete instances
    are kernel-computable.
-/

/-- Go strings.HasPrefix on character lists. -/
def strHasPre (s p : String) : Bool := s.data.take p.data.length == p.data

/-- Go strings.HasSuffix on character lists. -/
def strHasSuf (s p : String) : Bool :=
  s.data.length ≥ p.data.length && s.data.drop (s.data.length - p.data.length) == p.data

/-- Go strings.TrimPrefix: drop the prefix when present, else return the string unchanged. -/
def trimPre (s p : String) : String :=
  if strHasPre s p then String.mk (s.data.drop p.data.length) else s

/-- Go strings.TrimSuffix: drop the suffix when present, else return the string unchanged. -/
def trimSuf (s p : String) : String :=
  if strHasSuf s p then String.mk (s.data.take (s.data.length - p.data.length)) else s

/-- Go strings.Replace(s, "/", "-", -1), as used on repository names. -/
def dashRepo (s : String) : String :=
  String.mk (s.data.map (fun c => if c = '/' then '-' else c))

/-- First-match lookup in an association list, the model of indexing a Go map
(keys are unique in every map the code builds). -/
def lookupStr {α : Type} (m : List (String × α)) (k : String) : Option α :=
  match m with
  | [] => none
  | (k2, v) :: rest => if k2 = k then some v else lookupStr rest k

/-- The common shape of the Go for-loops that accumulate a list while
propagating a runtime panic (modelled as none): each element contributes a
chunk, and the chunks are concatenated in order. -/
def collectOpt {α β : Type} (f : α → Option (List β)) : List α → Option (List β)
  | [] => some []
  | a :: rest =>
    match f a with
    | none => none
    | some l => (collectOpt f rest).map (fun l2 => l ++ l2)

/-- k8s sets.String membership (Has). -/
def setHas (s : List String) (x : String) : Bool := s.contains x

/-- k8s sets.String insertion (Insert); the list stays duplicate-free. -/
def setInsert (s : List String) (x : String) : List String :=
  if s.contains x then s else s ++ [x]

/-- k8s sets.String removal (Delete). -/
def setDelete (s : List String) (x : String) : List String :=
  s.filter (fun y => y != x)

/-- corev1.EnvVarSource: only the ConfigMapKeyRef member is ever consulted, so
the source is modelled as the optional key reference (name of the ConfigMap and
key within it). -/
structure CMKeyRef where
  cmName : String
  key : String
deriving DecidableEq

/-- corev1.EnvVar restricted to the fields the engine reads. -/
structure EnvVar where
  name : String
  value : String
  valueFrom : Option CMKeyRef
deriving DecidableEq

/-- corev1.VolumeMount restricted to the fields the engine reads. -/
structure VolumeMount where
  name : String
  subPath : String
deriving DecidableEq

/-- corev1.VolumeProjection: only the ConfigMap source name is consulted. -/
structure VolumeProjection where
  configMap : Option String
deriving DecidableEq

/-- corev1.Volume restricted to the fields the engine reads: the name, the
optional ConfigMap volume source name, and the optional projected sources. -/
structure Volume where
  name : String
  configMap : Option String
  projected : Option (List VolumeProjection)
deriving DecidableEq

/-- corev1.Container restricted to the fields the engine reads. -/
structure Container where
  command : List String
  args : List String
  env : List EnvVar
  volumeMounts : List VolumeMount
deriving DecidableEq

/-- corev1.PodSpec restricted to the fields the engine reads. -/
structure PodSpec where
  containers : List Container
  volumes : List Volume
deriving DecidableEq

/-- prowconfig.Presubmit restricted to the fields the engine reads. Spec is a
pointer in Go and hence optional here (none models a nil pointer). -/
structure Presubmit where
  name : String
  agent : String
  branches : List String
  context : String
  rerunCommand : String
  optional : Bool
  labels : List (String × String)
  spec : Option PodSpec
deriving DecidableEq

/-- The zero value of prowconfig.Presubmit, produced by indexing a missing map key. -/
def zeroPresubmit : Presubmit := ⟨"", "", [], "", "", false, [], none⟩

/-- prowconfig.Periodic restricted to the fields the engine reads. -/
structure Periodic where
  name : String
  agent : String
  labels : List (String × String)
  spec : Option PodSpec
deriving DecidableEq

/-- cioperatorapi.TestStepConfiguration: the As name plus all remaining fields,
which the engine only ever compares for deep structural equality and therefore
appear as one opaque component. -/
structure TestStep where
  as : String
  rest : String
deriving DecidableEq

/-- The zero value of TestStepConfiguration, produced by indexing a missing map key. -/
def zeroTestStep : TestStep := ⟨"", ""⟩

/-- cioperatorapi.ReleaseBuildConfiguration: the test-step list plus all
remaining fields (images, promotion policy, build root, ...), which the engine
only ever compares for deep structural equality after clearing Tests and
therefore appear as one opaque component. -/
structure CiopConfig where
  tests : List TestStep
  rest : String
deriving DecidableEq

/-- pjapi.KubernetesAgent, the only rehearsable agent kind. -/
def kubernetesAgent : String := "kubernetes"

/-- The rehearse correlation label key (const rehearseLabel in jobs.go). -/
def rehearseLabel : String := "ci.openshift.org/rehearse"

/-- const defaultRehearsalRerunCommand in jobs.go. -/
def defaultRehearsalRerunCommand : String := "/test pj-rehearse"

/-!
## ExecutionCoordinator (pkg/rehearse/jobs.go: Executor)
-/

/-- pjapi.ProwJob restricted to what the coordinator reads: the object name
(metadata.Name, generated at submission) and Spec.Job (the job name recorded in
metrics). -/
structure ProwJob where
  name : String
  specJob : String
deriving DecidableEq

/-- pjapi.ProwJobState; triggered and pending are the non-terminal states. -/
inductive PJState where
  | triggered
  | pending
  | success
  | failure
  | aborted
  | errored
deriving DecidableEq

/-- A ProwJob as delivered by the watch stream, together with its status state. -/
structure WatchedPJ where
  name : String
  specJob : String
  state : PJState
deriving DecidableEq

/-- An object received from the watch stream: either a ProwJob or a value of
some other, unexpected type (the failed type assertion in waitForJobs). -/
inductive WatchObj where
  | isPJ (p : WatchedPJ)
  | other
deriving DecidableEq

/-- rehearse.ExecutionMetrics. -/
structure ExecutionMetrics where
  submittedRehearsals : List String
  passedRehearsals : List String
  failedRehearsals : List String
deriving DecidableEq

/-- The result of the waitForJobs event loop over a single watch stream. -/
inductive WaitOutcome where
  /-- The watch-set emptied; waitForJobs returned (success, nil). -/
  | done (success : Bool) (metrics : ExecutionMetrics)
  /-- An object of an unexpected type arrived; waitForJobs returned (false, err). -/
  | typeErr (metrics : ExecutionMetrics)
  /-- The stream ended with jobs outstanding; the Go loop re-opens the watch
  and keeps waiting. -/
  | exhausted (remaining : List String) (success : Bool) (metrics : ExecutionMetrics)
deriving DecidableEq

/-- The body of the event loop in Executor.waitForJobs (jobs.go lines 523-549):
skip events for names outside the watch-set, classify terminal states, remove
the job from the watch-set and return once it empties. Mirrors the source
faithfully, including the assignment
`e.Metrics.PassedRehearsals = append(e.Metrics.FailedRehearsals, pj.Spec.Job)`
executed on a success event. -/
def processEvents (events : List WatchObj) (jobs : List String) (success : Bool)
    (metrics : ExecutionMetrics) : WaitOutcome :=
  match events with
  | [] => .exhausted jobs success metrics
  | .other :: _ => .typeErr metrics
  | .isPJ p :: rest =>
    if ¬ setHas jobs p.name then processEvents rest jobs success metrics
    else
      match p.state with
      | .failure | .aborted | .errored =>
        let m := { metrics with failedRehearsals := metrics.failedRehearsals ++ [p.specJob] }
        let jobs2 := setDelete jobs p.name
        if jobs2.length = 0 then .done false m else processEvents rest jobs2 false m
      | .success =>
        let m := { metrics with passedRehearsals := metrics.failedRehearsals ++ [p.specJob] }
        let jobs2 := setDelete jobs p.name
        if jobs2.length = 0 then .done success m else processEvents rest jobs2 success m
      | _ => processEvents rest jobs success metrics

/-- Executor.waitForJobs: an empty watch-set returns success immediately;
otherwise one watch stream is opened (the returned Bool records whether a
stream was opened) and its events are processed. -/
def waitForJobs (jobs : List String) (events : List WatchObj)
    (metrics : ExecutionMetrics) : Bool × WaitOutcome :=
  if jobs.length = 0 then (false, .done true metrics)
  else (true, processEvents events jobs true metrics)

/-- A call made to the execution backend, recorded in an explicit trace. -/
inductive BackendCall where
  | submitP (job : Presubmit)
  | submitQ (job : Periodic)
  | watch (selector : String)
deriving DecidableEq

/-- The running state of Executor.submitRehearsals: the created ProwJobs, the
metrics, the collected submission errors (kerrors.NewAggregate of [] is a nil
error), and the trace of backend calls. -/
structure SubmitState where
  pjs : List ProwJob
  metrics : ExecutionMetrics
  errs : List String
  calls : List BackendCall
deriving DecidableEq

/-- The presubmit loop of Executor.submitRehearsals (jobs.go lines 557-567):
each successful creation appends the created job to the results, records
Spec.Job in Metrics.SubmittedRehearsals, and a failure is collected without
stopping the loop. -/
def submitPresubmitsLoop (createP : Presubmit → Except String ProwJob) :
    SubmitState → List Presubmit → SubmitState
  | acc, [] => acc
  | acc, job :: rest =>
    match createP job with
    | .error e =>
      submitPresubmitsLoop createP
        ⟨acc.pjs, acc.metrics, acc.errs ++ [e], acc.calls ++ [.submitP job]⟩ rest
    | .ok created =>
      submitPresubmitsLoop createP
        ⟨acc.pjs ++ [created],
         { acc.metrics with
            submittedRehearsals := acc.metrics.submittedRehearsals ++ [created.specJob] },
         acc.errs, acc.calls ++ [.submitP job]⟩ rest

/-- The periodic loop of Executor.submitRehearsals (jobs.go lines 569-578):
identical to the presubmit loop except that, as in the source, a successful
creation does not touch Metrics.SubmittedRehearsals. -/
def submitPeriodicsLoop (createQ : Periodic → Except String ProwJob) :
    SubmitState → List Periodic → SubmitState
  | acc, [] => acc
  | acc, job :: rest =>
    match createQ job with
    | .error e =>
      submitPeriodicsLoop createQ
        ⟨acc.pjs, acc.metrics, acc.errs ++ [e], acc.calls ++ [.submitQ job]⟩ rest
    | .ok created =>
      submitPeriodicsLoop createQ
        ⟨acc.pjs ++ [created], acc.metrics, acc.errs, acc.calls ++ [.submitQ job]⟩ rest

/-- Executor.submitRehearsals: submit every presubmit, then every periodic. -/
def submitRehearsals (createP : Presubmit → Except String ProwJob)
    (createQ : Periodic → Except String ProwJob)
    (presubmits : List Presubmit) (periodics : List Periodic)
    (metrics0 : ExecutionMetrics) : SubmitState :=
  submitPeriodicsLoop createQ
    (submitPresubmitsLoop createP ⟨[], metrics0, [], []⟩ presubmits) periodics

/-- The label selector built from the rehearse label and the PR number. -/
def mkSelector (prNumber : Nat) : String := rehearseLabel ++ "=" ++ toString prNumber

/-- The error returned by ExecuteJobs when some submission failed. -/
def submitFailureMsg : String := "failed to submit all rehearsal jobs"

/-- The final result of Executor.ExecuteJobs. -/
inductive ExecOutcome where
  /-- ExecuteJobs returned (success, errs); errs = [] models a nil error. -/
  | finished (success : Bool) (errs : List String)
  /-- The watch stream ended with jobs outstanding; the Go loop blocks,
  re-opening the watch forever. -/
  | blocked (remaining : List String)
deriving DecidableEq

/-- The observable behaviour of one ExecuteJobs run: its returned value, the
final metrics, and the trace of backend calls. -/
structure ExecResult where
  outcome : ExecOutcome
  metrics : ExecutionMetrics
  calls : List BackendCall
deriving DecidableEq

/-- Executor.ExecuteJobs (jobs.go lines 479-510). Submission happens first,
unconditionally; in dry-run mode the created jobs are printed as YAML (the
print error is discarded by the caller) and the returned Bool is true; in a
real run the names of the created jobs form the watch-set and waitForJobs is
consulted, with a submission failure reported through the returned error. -/
def executeJobs (dryRun : Bool) (prNumber : Nat)
    (createP : Presubmit → Except String ProwJob)
    (createQ : Periodic → Except String ProwJob)
    (presubmits : List Presubmit) (periodics : List Periodic)
    (events : List WatchObj) : ExecResult :=
  let s := submitRehearsals createP createQ presubmits periodics ⟨[], [], []⟩
  let submitSuccess := s.errs.isEmpty
  if dryRun then
    ⟨.finished true (if submitSuccess then [] else [submitFailureMsg]), s.metrics, s.calls⟩
  else
    let selector := mkSelector prNumber
    let names := s.pjs.foldl (fun acc j => setInsert acc j.name) []
    let w := waitForJobs names events s.metrics
    let calls := if w.1 then s.calls ++ [BackendCall.watch selector] else s.calls
    match w.2 with
    | .done sc m =>
      if submitSuccess then ⟨.finished sc [], m, calls⟩
      else ⟨.finished sc [submitFailureMsg], m, calls⟩
    | .typeErr m =>
      if submitSuccess then ⟨.finished false ["received an unexpected object type from watch"], m, calls⟩
      else ⟨.finished false [submitFailureMsg], m, calls⟩
    | .exhausted rem _ m => ⟨.blocked rem, m, calls⟩

/-!
## ChangeDetector (pkg/diffs)
-/

/-- getTestsByName builds a map from the As name to the test step (last write
wins); indexing a missing name yields the zero TestStepConfiguration. This is
that map's indexing operation. -/
def lastTestByName (tests : List TestStep) (n : String) : TestStep :=
  tests.foldl (fun acc t => if t.as = n then t else acc) zeroTestStep

/-- ReleaseBuildConfiguration with its test-step list cleared
(withoutTestsConfig.Tests = nil in GetChangedCiopConfigs). -/
def clearTests (c : CiopConfig) : CiopConfig := { c with tests := [] }

/-- The inner test-step loop of GetChangedCiopConfigs (part of pkg/diffs, lines
74-80): ranging over the by-name map of candidate test steps, the names whose
master entry (zero value when absent) differs are inserted into the affected
set. Ranging over the map is modelled by looking both sides up by name while
walking the candidate list; setInsert keeps the set duplicate-free. -/
def changedTestNames (oldTests newTests : List TestStep) : List String :=
  newTests.foldl
    (fun jobs t =>
      if lastTestByName oldTests t.as ≠ lastTestByName newTests t.as
      then setInsert jobs t.as else jobs)
    []

/-- What GetChangedCiopConfigs decides for one candidate file. -/
inductive CiopDiffOutcome where
  /-- Neither the config nor any test step changed: no output at all. -/
  | unchanged
  /-- New file, or a non-test field changed: the config is returned whole and
  no affected-test-names entry is made. -/
  | wholeChanged
  /-- Only test steps changed: the config is returned and the changed names
  form its affected-test-names entry. -/
  | testsChanged (names : List String)
deriving DecidableEq

/-- The per-file body of GetChangedCiopConfigs (pkg/diffs lines 49-85): a file
absent from master is new (whole change); otherwise the configs are compared
with Tests cleared, any remaining difference being a whole change; otherwise
the changed test names are collected and an affected entry exists exactly when
some test changed. -/
def diffCiopEntry (masterConfig : List (String × CiopConfig)) (filename : String)
    (newConfig : CiopConfig) : CiopDiffOutcome :=
  match lookupStr masterConfig filename with
  | none => .wholeChanged
  | some oldConfig =>
    if clearTests oldConfig ≠ clearTests newConfig then .wholeChanged
    else
      let jobs := changedTestNames oldConfig.tests newConfig.tests
      if jobs.length > 0 then .testsChanged jobs else .unchanged

/-- GetChangedCiopConfigs: both returned maps, as lists of key-value pairs in
candidate order (the Go function fills two maps while ranging over the
candidate map; per-file contributions are independent, so the result is the
pointwise collection of diffCiopEntry outcomes). -/
def GetChangedCiopConfigs (masterConfig prConfig : List (String × CiopConfig)) :
    List (String × CiopConfig) × List (String × List String) :=
  (prConfig.filterMap (fun fc =>
      match diffCiopEntry masterConfig fc.1 fc.2 with
      | .unchanged => none
      | _ => some fc),
   prConfig.filterMap (fun fc =>
      match diffCiopEntry masterConfig fc.1 fc.2 with
      | .testsChanged js => some (fc.1, js)
      | _ => none))

/-- The by-repo-and-name lookup built by getJobsByRepoAndName: within one
repository's list the last job with a given name wins, and indexing a missing
name yields the zero Presubmit. -/
def lastJobByName (jobs : List Presubmit) (n : String) : Presubmit :=
  jobs.foldl (fun acc p => if p.name = n then p else acc) zeroPresubmit

/-- masterJobs[repo][job.Name] in GetChangedPresubmits: a missing repository
yields the nil inner map, whose indexing yields the zero Presubmit. -/
def masterJobFor (master : List (String × List Presubmit)) (repo name : String) :
    Presubmit :=
  match lookupStr master repo with
  | none => zeroPresubmit
  | some jobs => lastJobByName jobs name

/-- The per-job test of GetChangedPresubmits (pkg/diffs lines 96-113): only
candidate jobs on the kubernetes agent are considered; a differing agent (also
the case of a job absent from master, whose zero value has an empty agent)
selects unconditionally, otherwise deep spec inequality selects. -/
def presubmitChanged (master : List (String × List Presubmit)) (repo : String)
    (job : Presubmit) : Bool :=
  let masterJob := masterJobFor master repo job.name
  if job.agent = kubernetesAgent then
    if masterJob.agent ≠ job.agent then true
    else decide (masterJob.spec ≠ job.spec)
  else false

/-- GetChangedPresubmits: the selected (repository, job) pairs, in candidate
order. config.Presubmits (a map repo → job list filled through Add, which
appends) is modelled as the list of its (repo, job) pairs. -/
def GetChangedPresubmits (master pr : List (String × List Presubmit)) :
    List (String × Presubmit) :=
  pr.flatMap (fun rj =>
    rj.2.filterMap (fun job =>
      if presubmitChanged master rj.1 job then some (rj.1, job) else none))

/-- The test name derived from a job name in GetPresubmitsForCiopConfigs
(pkg/diffs lines 173-175): strip the fixed pull-ci- prefix, then the
org-repo-branch- prefix. -/
def deriveTestName (repo jobName branch0 : String) : String :=
  trimPre (trimPre jobName "pull-ci-") (dashRepo repo ++ "-" ++ branch0 ++ "-")

/-- One environment variable's contribution in GetPresubmitsForCiopConfigs
(pkg/diffs lines 164-184): none models the runtime panic of indexing
job.Brancher.Branches[0] on an empty branch list (reached only when the
variable is sourced from a recognized ci-operator-configs ConfigMap whose key
is among the changed configs); otherwise some b tells whether this variable
causes the job to be added. -/
def envSelects (isCiopConfigCM : String → Bool)
    (ciopConfigs : List (String × CiopConfig))
    (affectedJobs : List (String × List String))
    (repo : String) (job : Presubmit) (env : EnvVar) : Option Bool :=
  match env.valueFrom with
  | none => some false
  | some ref =>
    if isCiopConfigCM ref.cmName then
      if (lookupStr ciopConfigs ref.key).isSome then
        match job.branches with
        | [] => none
        | b0 :: _ =>
          let testName := deriveTestName repo job.name b0
          match lookupStr affectedJobs ref.key with
          | some s => if ¬ setHas s testName then some false else some true
          | none => some true
      else some false
    else some false

/-- The env loop of GetPresubmitsForCiopConfigs for one job: each matching
variable appends (repo, job) (the loop does not break, so one job can be added
several times); none propagates a runtime panic. -/
def ciopEnvLoop (isCiopConfigCM : String → Bool)
    (ciopConfigs : List (String × CiopConfig))
    (affectedJobs : List (String × List String))
    (repo : String) (job : Presubmit) (envs : List EnvVar) :
    Option (List (String × Presubmit)) :=
  collectOpt
    (fun env =>
      match envSelects isCiopConfigCM ciopConfigs affectedJobs repo job env with
      | none => none
      | some true => some [(repo, job)]
      | some false => some [])
    envs

/-- Spec.Containers[0] through the Spec pointer: none models the runtime panic
of a nil Spec or an empty container list. -/
def specContainers0 (spec? : Option PodSpec) : Option Container :=
  match spec? with
  | none => none
  | some spec =>
    match spec.containers with
    | [] => none
    | c0 :: _ => some c0

/-- The per-job body of GetPresubmitsForCiopConfigs: jobs not on the kubernetes
agent contribute nothing; otherwise Spec.Containers[0].Env is walked (none
models the nil-Spec or empty-Containers runtime panic). -/
def jobCiopSelections (isCiopConfigCM : String → Bool)
    (ciopConfigs : List (String × CiopConfig))
    (affectedJobs : List (String × List String))
    (repo : String) (job : Presubmit) : Option (List (String × Presubmit)) :=
  if job.agent ≠ kubernetesAgent then some []
  else
    match specContainers0 job.spec with
    | none => none
    | some c0 => ciopEnvLoop isCiopConfigCM ciopConfigs affectedJobs repo job c0.env

/-- Collect per-job contributions across one repository's job list,
propagating a runtime panic. -/
def ciopJobsLoop (isCiopConfigCM : String → Bool)
    (ciopConfigs : List (String × CiopConfig))
    (affectedJobs : List (String × List String))
    (repo : String) (jobs : List Presubmit) : Option (List (String × Presubmit)) :=
  collectOpt (jobCiopSelections isCiopConfigCM ciopConfigs affectedJobs repo) jobs

/-- GetPresubmitsForCiopConfigs (pkg/diffs lines 156-190): walk every
(repository, jobs) entry of the candidate Prow configuration and collect the
selected (repository, job) pairs; none models a runtime panic. The recognized
ConfigMap-name predicate config.IsCiopConfigCM lives in pkg/config, which is
not part of the sources; it is passed in as a function argument. -/
def GetPresubmitsForCiopConfigs (isCiopConfigCM : String → Bool)
    (prow : List (String × List Presubmit))
    (ciopConfigs : List (String × CiopConfig))
    (affectedJobs : List (String × List String)) :
    Option (List (String × Presubmit)) :=
  collectOpt
    (fun rj => ciopJobsLoop isCiopConfigCM ciopConfigs affectedJobs rj.1 rj.2) prow

/-!
## RehearsalBuilder (pkg/rehearse/jobs.go)
-/

/-- const ciOperatorCommand: the single expected binary invocation. -/
def ciOperatorCommand : String := "ci-operator"

/-- The argument scan in filterJob (jobs.go lines 171-175). -/
def hasGitRefArg (args : List String) : Bool :=
  args.any (fun arg => strHasPre arg "--git-ref" || strHasPre arg "-git-ref")

/-- The decision filterJob makes for one execution spec. -/
inductive FilterResult where
  /-- filterJob returned nil: the job is eligible. -/
  | ok
  /-- filterJob returned an error: the job is reported and excluded. -/
  | reject (reason : String)
  /-- Indexing spec.Containers[0] on an empty container list: a runtime panic. -/
  | panics
deriving DecidableEq

/-- The container-level checks of rehearse.filterJob: the command must be
exactly [ci-operator]; no argument may already carry a git-ref override; extra
volumes require allowVolumes. -/
def filterContainer (container : Container) (volumes : List Volume)
    (allowVolumes : Bool) : FilterResult :=
  if container.command ≠ [ciOperatorCommand] then
    .reject "cannot rehearse jobs that have Command different from simple ci-operator"
  else if hasGitRefArg container.args then
    .reject "cannot rehearse jobs that call ci-operator with --git-ref arg"
  else if volumes.length > 0 ∧ ¬ allowVolumes then
    .reject "jobs that need additional volumes mounted are not allowed"
  else .ok

/-- rehearse.filterJob (jobs.go lines 163-181): the first container is indexed
unconditionally, then the container-level checks run. -/
def filterJob (spec : PodSpec) (allowVolumes : Bool) : FilterResult :=
  match spec.containers with
  | [] => .panics
  | container :: _ => filterContainer container spec.volumes allowVolumes

/-- How filterJobs reacts to the filterJob verdict: an error skips the job, a
panic propagates (none), nil keeps it (some true). -/
def filterSpecDecision (spec : PodSpec) (allowVolumes : Bool) : Option Bool :=
  match filterJob spec allowVolumes with
  | .panics => none
  | .reject _ => some false
  | .ok => some true

/-- The per-presubmit decision of rehearse.filterJobs (jobs.go lines 130-147):
zero branches and multiple branches are rejected before filterJob runs; some
false models a logged rejection, none a runtime panic (a nil Spec pointer or an
empty container list inside filterJob). -/
def filterOnePresubmit (allowVolumes : Bool) (job : Presubmit) : Option Bool :=
  if job.branches.length = 0 then some false
  else if job.branches.length ≠ 1 then some false
  else
    match job.spec with
    | none => none
    | some spec => filterSpecDecision spec allowVolumes

/-- The presubmit half of filterJobs over one repository's job list. -/
def filterPresubmitList (allowVolumes : Bool) (repo : String) (jobs : List Presubmit) :
    Option (List (String × Presubmit)) :=
  collectOpt
    (fun job =>
      match filterOnePresubmit allowVolumes job with
      | none => none
      | some false => some []
      | some true => some [(repo, job)])
    jobs

/-- The presubmit half of filterJobs over the full repo → jobs map. -/
def filterPresubmitsLoop (allowVolumes : Bool)
    (changedPresubmits : List (String × List Presubmit)) :
    Option (List (String × Presubmit)) :=
  collectOpt (fun rj => filterPresubmitList allowVolumes rj.1 rj.2) changedPresubmits

/-- The per-periodic decision of filterJobs (jobs.go lines 150-158). -/
def filterOnePeriodic (allowVolumes : Bool) (job : Periodic) : Option Bool :=
  match job.spec with
  | none => none
  | some spec => filterSpecDecision spec allowVolumes

/-- The periodic half of filterJobs. -/
def filterPeriodicsLoop (allowVolumes : Bool) (changedPeriodics : List Periodic) :
    Option (List Periodic) :=
  collectOpt
    (fun job =>
      match filterOnePeriodic allowVolumes job with
      | none => none
      | some false => some []
      | some true => some [job])
    changedPeriodics

/-- rehearse.filterJobs (jobs.go lines 126-161): the eligible presubmits (as
(repo, job) pairs, modelling config.Presubmits) and the eligible periodics;
none models a runtime panic while filtering. -/
def filterJobs (changedPresubmits : List (String × List Presubmit))
    (changedPeriodics : List Periodic) (allowVolumes : Bool) :
    Option (List (String × Presubmit) × List Periodic) :=
  match filterPresubmitsLoop allowVolumes changedPresubmits with
  | none => none
  | some ps =>
    match filterPeriodicsLoop allowVolumes changedPeriodics with
    | none => none
    | some qs => some (ps, qs)

/-- rehearse.inlineCiOpConfig on a container's env list: a variable sourced
from a recognized ci-operator-configs ConfigMap is replaced by the candidate
config's serialized content as a literal value (the serialization yaml.Marshal
and the recognizer config.IsCiopConfigCM live outside the sources and are
passed as function arguments); a missing referenced config is a hard error for
the job. -/
def inlineCiOpConfig (marshal : CiopConfig → String) (isCiopConfigCM : String → Bool)
    (ciopConfigs : List (String × CiopConfig)) :
    List EnvVar → Except String (List EnvVar)
  | [] => .ok []
  | env :: rest =>
    match env.valueFrom with
    | none => (inlineCiOpConfig marshal isCiopConfigCM ciopConfigs rest).map (fun l => env :: l)
    | some ref =>
      if isCiopConfigCM ref.cmName then
        match lookupStr ciopConfigs ref.key with
        | none => .error ("ci-operator config file " ++ ref.key ++ " was not found")
        | some cfg =>
          (inlineCiOpConfig marshal isCiopConfigCM ciopConfigs rest).map
            (fun l => ⟨env.name, marshal cfg, none⟩ :: l)
      else (inlineCiOpConfig marshal isCiopConfigCM ciopConfigs rest).map (fun l => env :: l)

/-- rehearse.replaceCMTemplateName for one volume (jobs.go lines 356-364): for
every volume mount whose SubPath is in the template mapping and whose name
matches the volume, the volume's ConfigMap source name is rewritten; writing
through a nil ConfigMap source is a runtime panic (none). -/
def rewriteTemplateVolume (volumeMounts : List VolumeMount)
    (mapping : List (String × String)) (volume : Volume) : Option Volume :=
  volumeMounts.foldl
    (fun acc vm =>
      match acc with
      | none => none
      | some v =>
        match lookupStr mapping vm.subPath with
        | some nm =>
          if vm.name = v.name then
            match v.configMap with
            | none => none
            | some _ => some { v with configMap := some nm }
          else some v
        | none => some v)
    (some volume)

/-- rehearse.replaceCMTemplateName over the volume list. -/
def replaceCMTemplateName (volumeMounts : List VolumeMount) (volumes : List Volume)
    (mapping : List (String × String)) : Option (List Volume) :=
  match volumes with
  | [] => some []
  | v :: rest =>
    match rewriteTemplateVolume volumeMounts mapping v with
    | none => none
    | some v2 => (replaceCMTemplateName volumeMounts rest mapping).map (fun l => v2 :: l)

/-- One projected source under rehearse.replaceClusterProfiles: a ConfigMap
source whose name is a known cluster profile is redirected to its temporary
per-run name. -/
def rewriteProjection (nameMap : List (String × String)) (s : VolumeProjection) :
    VolumeProjection :=
  match s.configMap with
  | none => s
  | some nm =>
    match lookupStr nameMap nm with
    | none => s
    | some tmp => ⟨some tmp⟩

/-- rehearse.replaceClusterProfiles (jobs.go lines 406-431): only volumes named
cluster-profile with projected sources are touched. The name map from profile
logical names to temporary per-run names is built from pkg/config helpers
(CMName, TempCMName) that are outside the sources; it is passed in directly. -/
def replaceClusterProfiles (volumes : List Volume) (nameMap : List (String × String)) :
    List Volume :=
  volumes.map (fun v =>
    if v.name ≠ "cluster-profile" then v
    else
      match v.projected with
      | none => v
      | some sources => { v with projected := some (sources.map (rewriteProjection nameMap)) })

/-- The outcome of JobConfigurer.configureJob on one execution spec. -/
inductive ConfigureOut where
  /-- Indexing spec.Containers[0] on an empty list or writing through a nil
  ConfigMap volume source: a runtime panic. -/
  | panics
  /-- inlineCiOpConfig returned an error: the job is reported and dropped. -/
  | failed (msg : String)
  /-- The configured spec. -/
  | ok (spec : PodSpec)
deriving DecidableEq

/-- JobConfigurer.configureJob (jobs.go lines 309-319): inline the ci-operator
config into the first container's env, then, when volumes are allowed, rewrite
template volume names and cluster-profile projections. -/
def configureSpec (marshal : CiopConfig → String) (isCiopConfigCM : String → Bool)
    (ciopConfigs : List (String × CiopConfig)) (allowVolumes : Bool)
    (templateMap profileMap : List (String × String)) (spec : PodSpec) : ConfigureOut :=
  match spec.containers with
  | [] => .panics
  | c0 :: rest =>
    match inlineCiOpConfig marshal isCiopConfigCM ciopConfigs c0.env with
    | .error e => .failed e
    | .ok env2 =>
      let c0b : Container := { c0 with env := env2 }
      let spec2 : PodSpec := { spec with containers := c0b :: rest }
      if allowVolumes then
        match replaceCMTemplateName c0b.volumeMounts spec2.volumes templateMap with
        | none => .panics
        | some vols2 => .ok { spec2 with volumes := replaceClusterProfiles vols2 profileMap }
      else .ok spec2

/-- Go map write m[k] = v on a string map modelled as an association list. -/
def setLabel (labels : List (String × String)) (k v : String) : List (String × String) :=
  if (lookupStr labels k).isSome then labels.map (fun kv => if kv.1 = k then (k, v) else kv)
  else labels ++ [(k, v)]

/-- An in-place field write on one heap object: the store holds every live
Presubmit object and writes name their target index explicitly, so that which
object a Go assignment mutates is part of the model. -/
def updateAt (store : List Presubmit) (i : Nat) (f : Presubmit → Presubmit) :
    List Presubmit :=
  match store[i]? with
  | none => store
  | some r => store.set i (f r)

/-- Rewriting the first container of a spec, used for the write
rehearsal.Spec.Containers[0].Args = ... . Callers reach this only having
established that a first container exists. -/
def updateContainer0 (spec : PodSpec) (f : Container → Container) : PodSpec :=
  match spec.containers with
  | [] => spec
  | c :: rest => { spec with containers := f c :: rest }

/-- The outcome of building one rehearsal presubmit. -/
inductive BuildOut where
  /-- A runtime panic (empty branch list, nil Spec, empty container list, nil
  ConfigMap volume source). -/
  | panics
  /-- configureJob failed; the rehearsal is dropped. -/
  | failed (msg : String)
  /-- The store after the build and the index of the fresh rehearsal object. -/
  | built (store : List Presubmit) (rehearsalIdx : Nat)
deriving DecidableEq

/-- The final stage of building one rehearsal presubmit: configureJob on the
rehearsal's spec, writing the configured spec back through the rehearsal's
index. -/
def buildFinishSpec (marshal : CiopConfig → String) (isCiopConfigCM : String → Bool)
    (ciopConfigs : List (String × CiopConfig)) (allowVolumes : Bool)
    (templateMap profileMap : List (String × String))
    (st : List Presubmit) (reh : Nat) (rspec : PodSpec) : BuildOut :=
  match configureSpec marshal isCiopConfigCM ciopConfigs allowVolumes
      templateMap profileMap rspec with
  | .panics => .panics
  | .failed e => .failed e
  | .ok spec2 => .built (updateAt st reh (fun r => { r with spec := some spec2 })) reh

/-- Reading the rehearsal's Spec pointer before configureJob (nil is a panic). -/
def buildFinishJob (marshal : CiopConfig → String) (isCiopConfigCM : String → Bool)
    (ciopConfigs : List (String × CiopConfig)) (allowVolumes : Bool)
    (templateMap profileMap : List (String × String))
    (st : List Presubmit) (reh : Nat) (rehJob : Presubmit) : BuildOut :=
  match rehJob.spec with
  | none => .panics
  | some rspec =>
    buildFinishSpec marshal isCiopConfigCM ciopConfigs allowVolumes
      templateMap profileMap st reh rspec

/-- Reading the rehearsal object back from the store for configureJob. -/
def buildFinish (marshal : CiopConfig → String) (isCiopConfigCM : String → Bool)
    (ciopConfigs : List (String × CiopConfig)) (allowVolumes : Bool)
    (templateMap profileMap : List (String × String))
    (st : List Presubmit) (reh : Nat) : BuildOut :=
  match st[reh]? with
  | none => .panics
  | some rehJob =>
    buildFinishJob marshal isCiopConfigCM ciopConfigs allowVolumes
      templateMap profileMap st reh rehJob

/-- The writes of makeRehearsalPresubmit after the first container is known:
rehearsal.Spec.Containers[0].Args = append(source args, the git-ref argument),
rehearsal.Optional = true, rehearsal.Labels[rehearseLabel] = prNumber; then the
configureJob stage. -/
def buildWithContainer (marshal : CiopConfig → String) (isCiopConfigCM : String → Bool)
    (ciopConfigs : List (String × CiopConfig)) (allowVolumes : Bool)
    (templateMap profileMap : List (String × String)) (c0 : Container)
    (repo branch : String) (prNumber : Nat) (st : List Presubmit) (reh : Nat) : BuildOut :=
  let gitrefArg := "--git-ref=" ++ repo ++ "@" ++ branch
  let st4 := updateAt st reh
    (fun r => { r with
      spec := r.spec.map (fun sp =>
        updateContainer0 sp (fun c => { c with args := c0.args ++ [gitrefArg] })) })
  let st5 := updateAt st4 reh (fun r => { r with optional := true })
  let st6 := updateAt st5 reh
    (fun r => { r with labels := setLabel r.labels rehearseLabel (toString prNumber) })
  buildFinish marshal isCiopConfigCM ciopConfigs allowVolumes templateMap profileMap st6 reh

/-- Indexing source.Spec.Containers[0] (empty is a panic). -/
def buildWithSpec (marshal : CiopConfig → String) (isCiopConfigCM : String → Bool)
    (ciopConfigs : List (String × CiopConfig)) (allowVolumes : Bool)
    (templateMap profileMap : List (String × String)) (sspec : PodSpec)
    (repo branch : String) (prNumber : Nat) (st : List Presubmit) (reh : Nat) : BuildOut :=
  match sspec.containers with
  | [] => .panics
  | c0 :: _ =>
    buildWithContainer marshal isCiopConfigCM ciopConfigs allowVolumes templateMap
      profileMap c0 repo branch prNumber st reh

/-- Dereferencing source.Spec (nil is a panic). -/
def buildSpecStage (marshal : CiopConfig → String) (isCiopConfigCM : String → Bool)
    (ciopConfigs : List (String × CiopConfig)) (allowVolumes : Bool)
    (templateMap profileMap : List (String × String)) (source : Presubmit)
    (repo branch : String) (prNumber : Nat) (st : List Presubmit) (reh : Nat) : BuildOut :=
  match source.spec with
  | none => .panics
  | some sspec =>
    buildWithSpec marshal isCiopConfigCM ciopConfigs allowVolumes templateMap
      profileMap sspec repo branch prNumber st reh

/-- After source.Branches[0] is known: the context and rerun-command writes
(jobs.go lines 96-99), then the spec-dependent writes. -/
def buildAfterBranch (marshal : CiopConfig → String) (isCiopConfigCM : String → Bool)
    (ciopConfigs : List (String × CiopConfig)) (allowVolumes : Bool)
    (templateMap profileMap : List (String × String)) (source : Presubmit)
    (repo b0 : String) (prNumber : Nat) (st : List Presubmit) (reh : Nat) : BuildOut :=
  let branch := trimPre (trimSuf b0 "$") "^"
  let shortName := trimPre source.context "ci/prow/"
  buildSpecStage marshal isCiopConfigCM ciopConfigs allowVolumes templateMap profileMap
    source repo branch prNumber
    (updateAt st reh
      (fun r => { r with
        context := "ci/rehearse/" ++ repo ++ "/" ++ branch ++ "/" ++ shortName,
        rerunCommand := defaultRehearsalRerunCommand }))
    reh

/-- Indexing source.Branches[0] (empty is a panic), after the name write. -/
def buildBranchStage (marshal : CiopConfig → String) (isCiopConfigCM : String → Bool)
    (ciopConfigs : List (String × CiopConfig)) (allowVolumes : Bool)
    (templateMap profileMap : List (String × String)) (source : Presubmit)
    (repo : String) (prNumber : Nat) (st : List Presubmit) (reh : Nat) : BuildOut :=
  match source.branches with
  | [] => .panics
  | b0 :: _ =>
    buildAfterBranch marshal isCiopConfigCM ciopConfigs allowVolumes templateMap
      profileMap source repo b0 prNumber st reh

/-- makeRehearsalPresubmit followed by JobConfigurer.configureJob (jobs.go
lines 90-111 and 263-319), over an explicit object store. deepcopy.Copy is a
JSON round-trip producing a fully independent object, modelled by allocating a
fresh store entry holding an equal value; every subsequent Go assignment writes
through the rehearsal object's index, with reads taken from the source value
exactly where the source reads them (source.Name, source.Branches[0],
source.Context, source.Spec.Containers[0].Args). -/
def buildRehearsalPresubmit (marshal : CiopConfig → String)
    (isCiopConfigCM : String → Bool) (ciopConfigs : List (String × CiopConfig))
    (allowVolumes : Bool) (templateMap profileMap : List (String × String))
    (store : List Presubmit) (src : Nat) (repo : String) (prNumber : Nat) : BuildOut :=
  match store[src]? with
  | none => .panics
  | some source =>
    buildBranchStage marshal isCiopConfigCM ciopConfigs allowVolumes templateMap
      profileMap source repo prNumber
      (updateAt (store ++ [source]) store.length
        (fun r => { r with name := "rehearse-" ++ toString prNumber ++ "-" ++ source.name }))
      store.length

/-!
## Concrete fixtures used by counterexamples and witnesses
-/

/-- A well-formed single-container execution spec invoking ci-operator. -/
def specCiOp : PodSpec := ⟨[⟨["ci-operator"], ["--target=e2e"], [], []⟩], []⟩

/-- A rehearsable candidate presubmit on the kubernetes agent. -/
def kubeJob : Presubmit :=
  ⟨"pull-ci-org-repo-master-e2e", "kubernetes", ["^master$"], "ci/prow/e2e",
   "/test e2e", false, [], some specCiOp⟩

/-- A candidate presubmit on the jenkins agent, otherwise unobjectionable. -/
def jenkinsJob : Presubmit :=
  ⟨"j1", "jenkins", ["^master$"], "ci/prow/j1", "/test j1", false, [], some specCiOp⟩

/-- The recognized build-config ConfigMap recognizer used in fixtures. -/
def isCM0 : String → Bool := fun n => n == "ci-operator-configs"

/-- An env var sourced from the recognized build-config ConfigMap. -/
def ciopEnv : EnvVar :=
  ⟨"CONFIG_SPEC", "", some ⟨"ci-operator-configs", "org-repo-master.yaml"⟩⟩

/-- A container whose env references the build-config ConfigMap. -/
def ciopC0 : Container := ⟨["ci-operator"], [], [ciopEnv], []⟩

/-- The spec of a job referencing the build-config ConfigMap. -/
def ciopSpec : PodSpec := ⟨[ciopC0], []⟩

/-- A job whose derived test name is e2e, referencing the changed config key. -/
def ciopJob : Presubmit :=
  ⟨"pull-ci-org-repo-master-e2e", "kubernetes", ["master"], "ci/prow/e2e",
   "/test e2e", false, [], some ciopSpec⟩

/-- A job referencing the same key whose derived test name is unit. -/
def ciopJobOther : Presubmit :=
  ⟨"pull-ci-org-repo-master-unit", "kubernetes", ["master"], "ci/prow/unit",
   "/test unit", false, [], some ciopSpec⟩

/-- The candidate Prow corpus of the C6 scenario. -/
def prow0 : List (String × List Presubmit) := [("org/repo", [ciopJob, ciopJobOther])]

/-- The changed-config set of the C6 scenario: one key whose e2e test changed. -/
def ciop0 : List (String × CiopConfig) :=
  [("org-repo-master.yaml", ⟨[⟨"e2e", "cmd"⟩], "base"⟩)]

/-- The affected-test-names mapping of the C6 scenario. -/
def aff0 : List (String × List String) := [("org-repo-master.yaml", ["e2e"])]

/-- A rehearsable periodic job. -/
def periodic0 : Periodic := ⟨"periodic-ci-org-repo-e2e", "kubernetes", [], some specCiOp⟩

/-- The successful result of an Except computation, if any. -/
def exOk {ε α : Type} : Except ε α → Option α
  | .ok a => some a
  | .error _ => none

/-- The error of an Except computation, if any. -/
def exErr {ε α : Type} : Except ε α → Option ε
  | .ok _ => none
  | .error e => some e

/-- The ProwJobs created for the presubmits that submitted successfully. -/
def createdP (createP : Presubmit → Except String ProwJob) (ps : List Presubmit) :
    List ProwJob :=
  ps.filterMap (fun j => exOk (createP j))

/-- The submission errors over the presubmits. -/
def errsP (createP : Presubmit → Except String ProwJob) (ps : List Presubmit) :
    List String :=
  ps.filterMap (fun j => exErr (createP j))

/-- The ProwJobs created for the periodics that submitted successfully. -/
def createdQ (createQ : Periodic → Except String ProwJob) (qs : List Periodic) :
    List ProwJob :=
  qs.filterMap (fun j => exOk (createQ j))

/-- The submission errors over the periodics. -/
def errsQ (createQ : Periodic → Except String ProwJob) (qs : List Periodic) :
    List String :=
  qs.filterMap (fun j => exErr (createQ j))

/-- A backend that accepts every presubmit. -/
def cpOk : Presubmit → Except String ProwJob :=
  fun j => .ok ⟨"prowjob-" ++ j.name, j.name⟩

/-- A backend that accepts every periodic. -/
def cqOk : Periodic → Except String ProwJob :=
  fun j => .ok ⟨"prowjob-" ++ j.name, j.name⟩

/-- The rehearsal object built from kubeJob at PR 42 (witness for the frame
property). -/
def rehearsedKubeJob : Presubmit :=
  ⟨"rehearse-42-pull-ci-org-repo-master-e2e", "kubernetes", ["^master$"],
   "ci/rehearse/org/repo/master/e2e", defaultRehearsalRerunCommand, true,
   [(rehearseLabel, "42")],
   some ⟨[⟨["ci-operator"], ["--target=e2e", "--git-ref=org/repo@master"], [], []⟩], []⟩⟩

/-- A kubernetes-agent job with a nil Spec pointer. -/
def badJob : Presubmit := ⟨"bad", "kubernetes", ["master"], "", "", false, [], none⟩

/-!
## Theorems
-/

/-- lastJobByName over a list containing no job of the requested name yields
the zero Presubmit (indexing a map key that was never written). -/
theorem lastJobByName_eq_zero {jobs : List Presubmit} {n : String}
    (h : ∀ mj ∈ jobs, mj.name ≠ n) : lastJobByName jobs n = zeroPresubmit := by
  have key : ∀ acc, List.foldl (fun acc p => if p.name = n then p else acc) acc jobs = acc := by
    induction jobs with
    | nil => intro acc; rfl
    | cons j rest ih =>
      intro acc
      have hj : j.name ≠ n := h j (by simp)
      simp only [List.foldl_cons, if_neg hj]
      exact ih (fun mj hm => h mj (by simp [hm])) acc
  exact key zeroPresubmit

/-- Membership characterization of GetChangedPresubmits: a (repo, job) pair is
selected exactly when it occurs in the candidate corpus and the per-job test
fires. -/
theorem mem_GetChangedPresubmits {master pr : List (String × List Presubmit)}
    {repo : String} {job : Presubmit} :
    (repo, job) ∈ GetChangedPresubmits master pr ↔
      (∃ jobs, (repo, jobs) ∈ pr ∧ job ∈ jobs) ∧
      presubmitChanged master repo job = true := by
  unfold GetChangedPresubmits
  simp only [List.mem_flatMap, List.mem_filterMap]
  constructor
  · rintro ⟨⟨r, js⟩, hrj, j, hj, hif⟩
    by_cases hc : presubmitChanged master r j
    · rw [if_pos hc] at hif
      obtain ⟨h1, h2⟩ := Prod.mk.injEq .. ▸ Option.some.inj hif
      subst h1; subst h2
      exact ⟨⟨js, hrj, hj⟩, hc⟩
    · rw [if_neg hc] at hif; cases hif
  · rintro ⟨⟨js, hjs, hj⟩, hch⟩
    exact ⟨(repo, js), hjs, job, hj, by rw [if_pos hch]⟩

/-- Claim C2 as stated is false on the code: GetChangedPresubmits only ever
considers candidate presubmits on the kubernetes agent, so a jenkins-agent job
present only in the candidate corpus is not selected, although the claim
requires every candidate-only job to be selected. -/
theorem claim_C2_counterexample :
    jenkinsJob ∈ [jenkinsJob] ∧
    ("org/repo", jenkinsJob) ∉ GetChangedPresubmits [] [("org/repo", [jenkinsJob])] := by
  decide

/-- Claim C2 amended: restricted to candidate presubmits whose agent is the
rehearsable kubernetes kind, a job is selected exactly when its master entry
(the zero Presubmit when absent) differs in agent or in execution spec; in
particular a job with no master entry under the same repository and name is
always selected (the zero entry's agent differs), and a job whose master entry
is identical is never selected. -/
theorem claim_C2_amended (master pr : List (String × List Presubmit))
    (repo : String) (job : Presubmit)
    (hmem : ∃ jobs, (repo, jobs) ∈ pr ∧ job ∈ jobs)
    (hagent : job.agent = kubernetesAgent) :
    ((repo, job) ∈ GetChangedPresubmits master pr ↔
      ((masterJobFor master repo job.name).agent ≠ job.agent ∨
       (masterJobFor master repo job.name).spec ≠ job.spec)) ∧
    ((∀ jobs, lookupStr master repo = some jobs → ∀ mj ∈ jobs, mj.name ≠ job.name) →
      (repo, job) ∈ GetChangedPresubmits master pr) ∧
    (masterJobFor master repo job.name = job →
      (repo, job) ∉ GetChangedPresubmits master pr) := by
  have hiff : (repo, job) ∈ GetChangedPresubmits master pr ↔
      ((masterJobFor master repo job.name).agent ≠ job.agent ∨
       (masterJobFor master repo job.name).spec ≠ job.spec) := by
    rw [mem_GetChangedPresubmits]
    unfold presubmitChanged
    rw [if_pos hagent]
    constructor
    · rintro ⟨-, hch⟩
      by_cases ha : (masterJobFor master repo job.name).agent ≠ job.agent
      · exact Or.inl ha
      · rw [if_neg ha] at hch
        exact Or.inr (of_decide_eq_true hch)
    · intro h
      refine ⟨hmem, ?_⟩
      by_cases ha : (masterJobFor master repo job.name).agent ≠ job.agent
      · rw [if_pos ha]
      · rw [if_neg ha]
        rcases h with h | h
        · exact absurd h ha
        · exact decide_eq_true h
  refine ⟨hiff, ?_, ?_⟩
  · intro habsent
    rw [hiff]
    left
    have hzero : masterJobFor master repo job.name = zeroPresubmit := by
      unfold masterJobFor
      cases hl : lookupStr master repo with
      | none => rfl
      | some jobs => exact lastJobByName_eq_zero (habsent jobs hl)
    rw [hzero, hagent]
    intro h
    exact absurd h.symm (by decide)
  · intro hsame h
    rw [hiff] at h
    rw [hsame] at h
    rcases h with h | h
    · exact h rfl
    · exact h rfl

/-- Witness for claim C2 amended: a kubernetes-agent job present only in the
candidate corpus is selected. -/
theorem claim_C2_amended_witness :
    ("org/repo", kubeJob) ∈ GetChangedPresubmits [] [("org/repo", [kubeJob])] :=
  (claim_C2_amended [] [("org/repo", [kubeJob])] "org/repo" kubeJob
      ⟨[kubeJob], by decide, by decide⟩ rfl).2.1
    (by intro jobs h; cases h)

/-- In an association list with duplicate-free keys, one key maps to at most
one value. -/
theorem assoc_key_unique {α : Type} {l : List (String × α)} {k : String} {a b : α}
    (hnd : (l.map Prod.fst).Nodup) (ha : (k, a) ∈ l) (hb : (k, b) ∈ l) : a = b := by
  induction l with
  | nil => cases ha
  | cons x rest ih =>
    simp only [List.map_cons, List.nodup_cons] at hnd
    rcases List.mem_cons.mp ha with ha1 | ha1 <;> rcases List.mem_cons.mp hb with hb1 | hb1
    · exact congrArg Prod.snd (ha1.trans hb1.symm)
    · exact absurd (congrArg Prod.fst ha1 ▸ List.mem_map.mpr ⟨(k, b), hb1, rfl⟩) hnd.1
    · exact absurd (congrArg Prod.fst hb1 ▸ List.mem_map.mpr ⟨(k, a), ha1, rfl⟩) hnd.1
    · exact ih hnd.2 ha1 hb1

/-- setInsert membership. -/
theorem mem_setInsert {s : List String} {x y : String} :
    x ∈ setInsert s y ↔ x ∈ s ∨ x = y := by
  unfold setInsert
  by_cases h : y ∈ s
  · rw [if_pos (List.elem_iff.mpr h)]
    constructor
    · exact Or.inl
    · rintro (hx | rfl)
      · exact hx
      · exact h
  · rw [if_neg (fun hc => h (List.elem_iff.mp hc))]
    simp [List.mem_append]

/-- Membership in the set built by folding setInsert over a filtered list. -/
theorem mem_foldl_setInsert (p : TestStep → Prop) [DecidablePred p]
    (l : List TestStep) (name : String) :
    ∀ acc, (name ∈ l.foldl (fun jobs t => if p t then setInsert jobs t.as else jobs) acc ↔
      name ∈ acc ∨ ∃ t ∈ l, t.as = name ∧ p t) := by
  induction l with
  | nil => intro acc; simp
  | cons t rest ih =>
    intro acc
    simp only [List.foldl_cons]
    by_cases hp : p t
    · rw [if_pos hp, ih]
      constructor
      · rintro (hacc | htail)
        · rcases mem_setInsert.mp hacc with h | rfl
          · exact Or.inl h
          · exact Or.inr ⟨t, by simp, rfl, hp⟩
        · obtain ⟨u, hu, h1, h2⟩ := htail
          exact Or.inr ⟨u, by simp [hu], h1, h2⟩
      · rintro (hacc | ⟨u, hu, h1, h2⟩)
        · exact Or.inl (mem_setInsert.mpr (Or.inl hacc))
        · rcases List.mem_cons.mp hu with rfl | hu2
          · exact Or.inl (mem_setInsert.mpr (Or.inr h1.symm))
          · exact Or.inr ⟨u, hu2, h1, h2⟩
    · rw [if_neg hp, ih]
      constructor
      · rintro (hacc | ⟨u, hu, h1, h2⟩)
        · exact Or.inl hacc
        · exact Or.inr ⟨u, by simp [hu], h1, h2⟩
      · rintro (hacc | ⟨u, hu, h1, h2⟩)
        · exact Or.inl hacc
        · rcases List.mem_cons.mp hu with rfl | hu2
          · exact absurd h2 hp
          · exact Or.inr ⟨u, hu2, h1, h2⟩

/-- Membership in the affected-test-name set computed for one file. -/
theorem mem_changedTestNames {old new : List TestStep} {name : String} :
    name ∈ changedTestNames old new ↔
      ∃ t ∈ new, t.as = name ∧ lastTestByName old t.as ≠ lastTestByName new t.as := by
  unfold changedTestNames
  rw [mem_foldl_setInsert (fun t => lastTestByName old t.as ≠ lastTestByName new t.as) new name []]
  simp

/-- A fold looking for a test name keeps its accumulator over a list with no
matching name. -/
theorem lastTestByName_foldl_const {tests : List TestStep} {n : String}
    (h : ∀ u ∈ tests, u.as ≠ n) :
    ∀ acc, List.foldl (fun acc t => if t.as = n then t else acc) acc tests = acc := by
  induction tests with
  | nil => intro acc; rfl
  | cons t rest ih =>
    intro acc
    simp only [List.foldl_cons, if_neg (h t (by simp))]
    exact ih (fun u hu => h u (by simp [hu])) acc

/-- lastTestByName over a list containing no test of the requested name yields
the zero TestStepConfiguration. -/
theorem lastTestByName_eq_zero {tests : List TestStep} {n : String}
    (h : ∀ u ∈ tests, u.as ≠ n) : lastTestByName tests n = zeroTestStep :=
  lastTestByName_foldl_const h zeroTestStep

/-- With duplicate-free test names, looking a member test up by its own name
returns that test. -/
theorem lastTestByName_self {tests : List TestStep}
    (hnd : (tests.map TestStep.as).Nodup) {t : TestStep} (ht : t ∈ tests) :
    lastTestByName tests t.as = t := by
  induction tests with
  | nil => cases ht
  | cons u rest ih =>
    simp only [List.map_cons, List.nodup_cons] at hnd
    rcases List.mem_cons.mp ht with rfl | ht2
    · unfold lastTestByName
      simp only [List.foldl_cons, if_pos rfl]
      refine lastTestByName_foldl_const ?_ t
      intro v hv hveq
      exact hnd.1 (hveq ▸ List.mem_map.mpr ⟨v, hv, rfl⟩)
    · have hne : u.as ≠ t.as := by
        intro he
        exact hnd.1 (he ▸ List.mem_map.mpr ⟨t, ht2, rfl⟩)
      unfold lastTestByName at ih ⊢
      simp only [List.foldl_cons, if_neg hne]
      exact ih hnd.2 ht2

/-- The per-file diff when the key is present in master, with the match on the
lookup reduced. -/
theorem diffCiopEntry_some {master : List (String × CiopConfig)} {key : String}
    {oldC newC : CiopConfig} (hl : lookupStr master key = some oldC) :
    diffCiopEntry master key newC =
      (if clearTests oldC ≠ clearTests newC then .wholeChanged
       else if (changedTestNames oldC.tests newC.tests).length > 0
       then .testsChanged (changedTestNames oldC.tests newC.tests) else .unchanged) := by
  unfold diffCiopEntry
  rw [hl]

/-- The per-file diff when the key is absent from master. -/
theorem diffCiopEntry_none {master : List (String × CiopConfig)} {key : String}
    {newC : CiopConfig} (hl : lookupStr master key = none) :
    diffCiopEntry master key newC = .wholeChanged := by
  unfold diffCiopEntry
  rw [hl]

/-- An affected-test-names entry for a key of the candidate map is exactly a
testsChanged outcome of the per-file diff (keys being unique in the candidate
map). -/
theorem affected_entry_iff {master pr : List (String × CiopConfig)} {key : String}
    {newC : CiopConfig} {s : List String}
    (hnd : (pr.map Prod.fst).Nodup) (hmem : (key, newC) ∈ pr) :
    (key, s) ∈ (GetChangedCiopConfigs master pr).2 ↔
      diffCiopEntry master key newC = .testsChanged s := by
  unfold GetChangedCiopConfigs
  simp only [List.mem_filterMap]
  constructor
  · rintro ⟨⟨f, c⟩, hfc, hmatch⟩
    cases hd : diffCiopEntry master f c with
    | unchanged => rw [hd] at hmatch; cases hmatch
    | wholeChanged => rw [hd] at hmatch; cases hmatch
    | testsChanged js =>
      rw [hd] at hmatch
      obtain ⟨h1, h2⟩ := Prod.mk.injEq .. ▸ Option.some.inj hmatch
      subst h1
      have hc : c = newC := assoc_key_unique hnd hfc hmem
      subst hc
      rw [← h2]
      exact hd
  · intro hd
    exact ⟨(key, newC), hmem, by rw [hd]⟩

/-- Claim C5: a key receives an affected-test-names entry only when the two
configs with test steps cleared are deeply equal; a key absent from master or
differing in a non-test field is reported changed whole with no affected
entry; otherwise a candidate test step contributes its name exactly when it is
absent or unequal (by name) in master. Hypotheses: candidate map keys are
unique, and the candidate file's test-step names are unique and non-empty (the
data-model invariants). -/
theorem claim_C5 (master pr : List (String × CiopConfig)) (key : String) (newC : CiopConfig)
    (hnd : (pr.map Prod.fst).Nodup) (hmem : (key, newC) ∈ pr)
    (htnd : (newC.tests.map TestStep.as).Nodup)
    (hne : ∀ t ∈ newC.tests, t.as ≠ "") :
    (∀ s, (key, s) ∈ (GetChangedCiopConfigs master pr).2 →
      ∃ oldC, lookupStr master key = some oldC ∧ clearTests oldC = clearTests newC) ∧
    (lookupStr master key = none →
      (key, newC) ∈ (GetChangedCiopConfigs master pr).1 ∧
      ∀ s, (key, s) ∉ (GetChangedCiopConfigs master pr).2) ∧
    (∀ oldC, lookupStr master key = some oldC → clearTests oldC ≠ clearTests newC →
      (key, newC) ∈ (GetChangedCiopConfigs master pr).1 ∧
      ∀ s, (key, s) ∉ (GetChangedCiopConfigs master pr).2) ∧
    (∀ oldC, lookupStr master key = some oldC → clearTests oldC = clearTests newC →
      ∀ t ∈ newC.tests,
        (((∀ u ∈ oldC.tests, u.as ≠ t.as) ∨ lastTestByName oldC.tests t.as ≠ t) ↔
          ∃ s, (key, s) ∈ (GetChangedCiopConfigs master pr).2 ∧ t.as ∈ s)) := by
  have hret : ∀ (_ : diffCiopEntry master key newC ≠ .unchanged),
      (key, newC) ∈ (GetChangedCiopConfigs master pr).1 := by
    intro hd
    unfold GetChangedCiopConfigs
    simp only [List.mem_filterMap]
    refine ⟨(key, newC), hmem, ?_⟩
    cases h : diffCiopEntry master key newC with
    | unchanged => exact absurd h hd
    | wholeChanged => rfl
    | testsChanged js => rfl
  refine ⟨?_, ?_, ?_, ?_⟩
  · intro s hs
    have hd := (affected_entry_iff hnd hmem).mp hs
    cases hl : lookupStr master key with
    | none => rw [diffCiopEntry_none hl] at hd; cases hd
    | some oldC =>
      rw [diffCiopEntry_some hl] at hd
      by_cases hcl : clearTests oldC ≠ clearTests newC
      · rw [if_pos hcl] at hd; cases hd
      · exact ⟨oldC, rfl, not_not.mp hcl⟩
  · intro hl
    have hd := @diffCiopEntry_none master key newC hl
    refine ⟨hret (by rw [hd]; intro h; cases h), ?_⟩
    intro s hs
    have := (affected_entry_iff hnd hmem).mp hs
    rw [hd] at this
    cases this
  · intro oldC hl hcl
    have hd : diffCiopEntry master key newC = .wholeChanged := by
      rw [diffCiopEntry_some hl, if_pos hcl]
    refine ⟨hret (by rw [hd]; intro h; cases h), ?_⟩
    intro s hs
    have := (affected_entry_iff hnd hmem).mp hs
    rw [hd] at this
    cases this
  · intro oldC hl hcl t ht
    have hlast : lastTestByName newC.tests t.as = t := lastTestByName_self htnd ht
    have hzero : t ≠ zeroTestStep := by
      intro h
      exact hne t ht (by rw [h]; rfl)
    have hLHS : ((∀ u ∈ oldC.tests, u.as ≠ t.as) ∨ lastTestByName oldC.tests t.as ≠ t) ↔
        lastTestByName oldC.tests t.as ≠ t := by
      constructor
      · rintro (habs | hneq)
        · rw [lastTestByName_eq_zero habs]
          exact fun h => hzero h.symm
        · exact hneq
      · exact Or.inr
    rw [hLHS]
    have hdiff : diffCiopEntry master key newC =
        (if (changedTestNames oldC.tests newC.tests).length > 0
         then .testsChanged (changedTestNames oldC.tests newC.tests) else .unchanged) := by
      rw [diffCiopEntry_some hl, if_neg (not_not.mpr hcl)]
    constructor
    · intro hneq
      have hnm : t.as ∈ changedTestNames oldC.tests newC.tests :=
        mem_changedTestNames.mpr ⟨t, ht, rfl, by rw [hlast]; exact hneq⟩
      have hlen : (changedTestNames oldC.tests newC.tests).length > 0 :=
        List.length_pos.mpr (fun h => by rw [h] at hnm; cases hnm)
      refine ⟨changedTestNames oldC.tests newC.tests, ?_, hnm⟩
      rw [affected_entry_iff hnd hmem, hdiff, if_pos hlen]
    · rintro ⟨s, hs, hts⟩
      have := (affected_entry_iff hnd hmem).mp hs
      rw [hdiff] at this
      by_cases hlen : (changedTestNames oldC.tests newC.tests).length > 0
      · rw [if_pos hlen] at this
        obtain rfl : changedTestNames oldC.tests newC.tests = s := by
          cases this; rfl
        obtain ⟨u, hu, hun, huneq⟩ := mem_changedTestNames.mp hts
        have hut : u = t := List.inj_on_of_nodup_map htnd hu ht (by rw [hun])
        subst hut
        rw [hun, hlast] at huneq
        rw [hun] at huneq
        exact huneq
      · rw [if_neg hlen] at this
        cases this

/-- Witness for claim C5: a candidate that adds one test step e2e to a config
otherwise identical in master gets an affected entry naming exactly e2e. -/
theorem claim_C5_witness :
    (∀ s, ("org-repo-master.yaml", s) ∈
        (GetChangedCiopConfigs [("org-repo-master.yaml", ⟨[], "base"⟩)]
          [("org-repo-master.yaml", ⟨[⟨"e2e", "cmd"⟩], "base"⟩)]).2 →
      ∃ oldC, lookupStr [("org-repo-master.yaml", ⟨[], "base"⟩)] "org-repo-master.yaml"
          = some oldC ∧ clearTests oldC = clearTests ⟨[⟨"e2e", "cmd"⟩], "base"⟩) ∧
    (((∀ u ∈ ([] : List TestStep), u.as ≠ "e2e") ∨
        lastTestByName [] "e2e" ≠ (⟨"e2e", "cmd"⟩ : TestStep)) →
      ∃ s, ("org-repo-master.yaml", s) ∈
          (GetChangedCiopConfigs [("org-repo-master.yaml", ⟨[], "base"⟩)]
            [("org-repo-master.yaml", ⟨[⟨"e2e", "cmd"⟩], "base"⟩)]).2 ∧ "e2e" ∈ s) := by
  have h := claim_C5 [("org-repo-master.yaml", ⟨[], "base"⟩)]
    [("org-repo-master.yaml", ⟨[⟨"e2e", "cmd"⟩], "base"⟩)]
    "org-repo-master.yaml" ⟨[⟨"e2e", "cmd"⟩], "base"⟩
    (by decide) (by decide) (by decide) (by decide)
  refine ⟨h.1, ?_⟩
  intro hch
  exact (h.2.2.2 ⟨[], "base"⟩ (by decide) (by decide) ⟨"e2e", "cmd"⟩ (by decide)).mp hch

/-- A panicking element makes the whole collecting loop panic. -/
theorem collectOpt_none {α β : Type} {f : α → Option (List β)} {l : List α} {a : α}
    (ha : a ∈ l) (hf : f a = none) : collectOpt f l = none := by
  induction l with
  | nil => cases ha
  | cons x rest ih =>
    rcases List.mem_cons.mp ha with rfl | ha2
    · unfold collectOpt; rw [hf]
    · unfold collectOpt
      cases hx : f x with
      | none => rfl
      | some lx => rw [ih ha2]; rfl

/-- A successful collecting loop had no panicking element. -/
theorem collectOpt_forall_some {α β : Type} {f : α → Option (List β)} {l : List α}
    {out : List β} (h : collectOpt f l = some out) : ∀ a ∈ l, ∃ la, f a = some la := by
  intro a ha
  cases hf : f a with
  | some la => exact ⟨la, rfl⟩
  | none => rw [collectOpt_none ha hf] at h; cases h

/-- Membership in the output of a successful collecting loop. -/
theorem collectOpt_mem {α β : Type} {f : α → Option (List β)} {l : List α} {out : List β}
    (h : collectOpt f l = some out) {x : β} :
    x ∈ out ↔ ∃ a ∈ l, ∃ la, f a = some la ∧ x ∈ la := by
  induction l generalizing out with
  | nil =>
    simp only [collectOpt] at h
    obtain rfl := Option.some.inj h
    simp
  | cons a rest ih =>
    simp only [collectOpt] at h
    cases hf : f a with
    | none => rw [hf] at h; cases h
    | some la =>
      rw [hf] at h
      rcases Option.map_eq_some'.mp h with ⟨l2, hrec, rfl⟩
      constructor
      · intro hx
        rcases List.mem_append.mp hx with hx1 | hx2
        · exact ⟨a, by simp, la, hf, hx1⟩
        · obtain ⟨b, hb, lb, hfb, hxb⟩ := (ih hrec).mp hx2
          exact ⟨b, by simp [hb], lb, hfb, hxb⟩
      · rintro ⟨b, hb, lb, hfb, hxb⟩
        rcases List.mem_cons.mp hb with rfl | hb2
        · rw [hf] at hfb
          obtain rfl := Option.some.inj hfb
          exact List.mem_append.mpr (Or.inl hxb)
        · exact List.mem_append.mpr (Or.inr ((ih hrec).mpr ⟨b, hb2, lb, hfb, hxb⟩))

/-- A collecting loop with no panicking element succeeds. -/
theorem collectOpt_total {α β : Type} {f : α → Option (List β)} {l : List α}
    (h : ∀ a ∈ l, ∃ la, f a = some la) : ∃ out, collectOpt f l = some out := by
  induction l with
  | nil => exact ⟨[], rfl⟩
  | cons a rest ih =>
    obtain ⟨la, hfa⟩ := h a (by simp)
    obtain ⟨out2, hrec⟩ := ih (fun b hb => h b (by simp [hb]))
    refine ⟨la ++ out2, ?_⟩
    unfold collectOpt
    rw [hfa, hrec]
    rfl

/-- The semantic reading of a selecting env var, for a job with at least one
branch: it is sourced from a recognized ConfigMap whose key is among the
changed configs, and the derived test name is unscoped or in the affected set. -/
theorem envSelects_true_iff {isCM : String → Bool} {ciop : List (String × CiopConfig)}
    {aff : List (String × List String)} {repo : String} {job : Presubmit}
    {b0 : String} {bs : List String} (hb : job.branches = b0 :: bs) {env : EnvVar} :
    envSelects isCM ciop aff repo job env = some true ↔
      ∃ ref, env.valueFrom = some ref ∧ isCM ref.cmName = true ∧
        (lookupStr ciop ref.key).isSome = true ∧
        (∀ s, lookupStr aff ref.key = some s →
          setHas s (deriveTestName repo job.name b0) = true) := by
  unfold envSelects
  cases hv : env.valueFrom with
  | none => simp
  | some ref =>
    simp only []
    by_cases hcm : isCM ref.cmName
    · rw [if_pos hcm]
      by_cases hk : (lookupStr ciop ref.key).isSome
      · rw [if_pos hk, hb]
        cases ha : lookupStr aff ref.key with
        | none =>
          simp only [ha]
          constructor
          · intro _
            exact ⟨ref, rfl, hcm, hk, fun s hs => by rw [ha] at hs; cases hs⟩
          · intro _; trivial
        | some s =>
          simp only [ha]
          by_cases hs : setHas s (deriveTestName repo job.name b0)
          · rw [if_neg (by rw [hs]; exact fun h => h rfl)]
            constructor
            · intro _
              refine ⟨ref, rfl, hcm, hk, fun s2 hs2 => ?_⟩
              rw [ha] at hs2
              obtain rfl := Option.some.inj hs2
              exact hs
            · intro _; rfl
          · rw [if_pos (by rw [Bool.not_eq_true] at hs; rw [hs]; exact Bool.false_ne_true)]
            constructor
            · intro h; cases h
            · rintro ⟨ref2, href, _, _, hall⟩
              obtain rfl := Option.some.inj href
              exact absurd (hall s (by rw [ha])) hs
      · rw [if_neg hk]
        constructor
        · intro h; cases h
        · rintro ⟨ref2, href, _, hk2, _⟩
          obtain rfl := Option.some.inj href
          exact absurd hk2 hk
    · constructor
      · intro h
        rw [if_neg hcm] at h
        cases h
      · rintro ⟨ref2, href, hcm2, _, _⟩
        obtain rfl := Option.some.inj href
        exact absurd hcm2 hcm

/-- Every pair produced for one job by the env loop is that (repo, job). -/
theorem ciopEnvLoop_elems {isCM : String → Bool} {ciop : List (String × CiopConfig)}
    {aff : List (String × List String)} {repo : String} {job : Presubmit}
    {envs : List EnvVar} {l : List (String × Presubmit)}
    (h : ciopEnvLoop isCM ciop aff repo job envs = some l) :
    ∀ x ∈ l, x = (repo, job) := by
  intro x hx
  obtain ⟨env, _, la, hfa, hxa⟩ := (collectOpt_mem h).mp hx
  cases hsel : envSelects isCM ciop aff repo job env with
  | none => rw [hsel] at hfa; cases hfa
  | some b =>
    rw [hsel] at hfa
    cases b
    · obtain rfl := Option.some.inj hfa
      cases hxa
    · obtain rfl := Option.some.inj hfa
      rcases List.mem_singleton.mp hxa with rfl
      rfl

/-- The env loop selects its job exactly when some env var selects. -/
theorem ciopEnvLoop_mem_iff {isCM : String → Bool} {ciop : List (String × CiopConfig)}
    {aff : List (String × List String)} {repo : String} {job : Presubmit}
    {envs : List EnvVar} {l : List (String × Presubmit)}
    (h : ciopEnvLoop isCM ciop aff repo job envs = some l) :
    ((repo, job) ∈ l ↔ ∃ env ∈ envs, envSelects isCM ciop aff repo job env = some true) := by
  rw [collectOpt_mem h]
  constructor
  · rintro ⟨env, he, la, hfa, hxa⟩
    cases hsel : envSelects isCM ciop aff repo job env with
    | none => rw [hsel] at hfa; cases hfa
    | some b =>
      rw [hsel] at hfa
      cases b
      · obtain rfl := Option.some.inj hfa
        cases hxa
      · exact ⟨env, he, hsel⟩
  · rintro ⟨env, he, hsel⟩
    refine ⟨env, he, [(repo, job)], ?_, by simp⟩
    rw [hsel]

/-- Every pair produced for one job by jobCiopSelections is that (repo, job). -/
theorem jobCiopSelections_elems {isCM : String → Bool} {ciop : List (String × CiopConfig)}
    {aff : List (String × List String)} {repo : String} {job : Presubmit}
    {l : List (String × Presubmit)}
    (h : jobCiopSelections isCM ciop aff repo job = some l) :
    ∀ x ∈ l, x = (repo, job) := by
  unfold jobCiopSelections at h
  by_cases ha : job.agent ≠ kubernetesAgent
  · rw [if_pos ha] at h
    obtain rfl := Option.some.inj h
    intro x hx; cases hx
  · rw [if_neg ha] at h
    cases hc : specContainers0 job.spec with
    | none => rw [hc] at h; cases h
    | some c0 => rw [hc] at h; exact ciopEnvLoop_elems h

/-- Claim C6: among the candidate corpus, a rehearsable (kubernetes-agent) job
with a well-formed spec is selected by the config-to-job linkage pass exactly
when some env var of its first container is sourced from the recognized
build-config ConfigMap with a key among the changed configs, and the derived
test name (the job name with pull-ci- and org-repo-branch- stripped) is
unscoped by the diff or a member of that key's affected set; a job not on the
kubernetes agent is never selected. -/
theorem claim_C6 (isCM : String → Bool) (prow : List (String × List Presubmit))
    (ciopConfigs : List (String × CiopConfig)) (affectedJobs : List (String × List String))
    (out : List (String × Presubmit)) (repo : String) (job : Presubmit)
    (hout : GetPresubmitsForCiopConfigs isCM prow ciopConfigs affectedJobs = some out)
    (hmem : ∃ jobs, (repo, jobs) ∈ prow ∧ job ∈ jobs) :
    (∀ spec c0 cs b0 bs, job.agent = kubernetesAgent →
      job.spec = some spec → spec.containers = c0 :: cs → job.branches = b0 :: bs →
      ((repo, job) ∈ out ↔
        ∃ env ∈ c0.env, ∃ ref, env.valueFrom = some ref ∧ isCM ref.cmName = true ∧
          (lookupStr ciopConfigs ref.key).isSome = true ∧
          (∀ s, lookupStr affectedJobs ref.key = some s →
            setHas s (deriveTestName repo job.name b0) = true))) ∧
    (job.agent ≠ kubernetesAgent → (repo, job) ∉ out) := by
  obtain ⟨jobs, hjobs, hjob⟩ := hmem
  unfold GetPresubmitsForCiopConfigs at hout
  constructor
  · intro spec c0 cs b0 bs hagent hspec hc hb
    have hc0 : specContainers0 job.spec = some c0 := by
      rw [hspec]
      simp [specContainers0, hc]
    have hsel_eq : jobCiopSelections isCM ciopConfigs affectedJobs repo job =
        ciopEnvLoop isCM ciopConfigs affectedJobs repo job c0.env := by
      unfold jobCiopSelections
      rw [if_neg (fun hne => hne hagent), hc0]
    constructor
    · intro hx
      obtain ⟨⟨r2, js2⟩, hrj, lrj, hloop, hxl⟩ := (collectOpt_mem hout).mp hx
      unfold ciopJobsLoop at hloop
      obtain ⟨j2, hj2, lj, hjsel, hxlj⟩ := (collectOpt_mem hloop).mp hxl
      have hpair := jobCiopSelections_elems hjsel _ hxlj
      obtain ⟨h1, h2⟩ := Prod.mk.injEq .. ▸ hpair
      subst h1; subst h2
      rw [hsel_eq] at hjsel
      obtain ⟨env, he, hsel⟩ := (ciopEnvLoop_mem_iff hjsel).mp hxlj
      exact ⟨env, he, (envSelects_true_iff hb).mp hsel⟩
    · rintro ⟨env, he, hsem⟩
      have hsel : envSelects isCM ciopConfigs affectedJobs repo job env = some true :=
        (envSelects_true_iff hb).mpr hsem
      obtain ⟨lrj, hloop⟩ := collectOpt_forall_some hout (repo, jobs) hjobs
      unfold ciopJobsLoop at hloop
      obtain ⟨lj, hjsel⟩ := collectOpt_forall_some hloop job hjob
      refine (collectOpt_mem hout).mpr ⟨(repo, jobs), hjobs, lrj, ?_, ?_⟩
      · unfold ciopJobsLoop
        exact hloop
      · refine (collectOpt_mem hloop).mpr ⟨job, hjob, lj, hjsel, ?_⟩
        rw [hsel_eq] at hjsel
        exact (ciopEnvLoop_mem_iff hjsel).mpr ⟨env, he, hsel⟩
  · intro hna hx
    obtain ⟨⟨r2, js2⟩, hrj, lrj, hloop, hxl⟩ := (collectOpt_mem hout).mp hx
    unfold ciopJobsLoop at hloop
    obtain ⟨j2, hj2, lj, hjsel, hxlj⟩ := (collectOpt_mem hloop).mp hxl
    have hpair := jobCiopSelections_elems hjsel _ hxlj
    obtain ⟨h1, h2⟩ := Prod.mk.injEq .. ▸ hpair
    subst h1; subst h2
    unfold jobCiopSelections at hjsel
    rw [if_pos hna] at hjsel
    obtain rfl := Option.some.inj hjsel
    cases hxlj

/-- Witness for claim C6: in the scenario where only test step e2e of one
build config changed, the job referencing that key whose derived test name is
e2e is selected. -/
theorem claim_C6_witness :
    ("org/repo", ciopJob) ∈ [("org/repo", ciopJob)] := by
  have h := (claim_C6 isCM0 prow0 ciop0 aff0 [("org/repo", ciopJob)] "org/repo" ciopJob
      (by decide) ⟨[ciopJob, ciopJobOther], by decide, by decide⟩).1
    ciopSpec ciopC0 [] "master" [] rfl rfl rfl rfl
  refine h.mpr ⟨ciopEnv, by decide, ⟨"ci-operator-configs", "org-repo-master.yaml"⟩,
    rfl, by decide, by decide, ?_⟩
  intro s hs
  have hseq : s = ["e2e"] := by
    have : some (["e2e"] : List String) = some s := by
      rw [← hs]; rfl
    exact (Option.some.inj this).symm
  subst hseq
  decide

/-- Membership through a collecting loop whose chunks are empty or a
singleton, driven by a three-way decision. -/
theorem collectOpt_singleton_mem {α β : Type} {g : α → Option Bool} {h : α → β}
    {l : List α} {out : List β}
    (hc : collectOpt (fun a =>
        match g a with
        | none => none
        | some false => some []
        | some true => some [h a]) l = some out)
    {x : β} : x ∈ out ↔ ∃ a ∈ l, g a = some true ∧ x = h a := by
  rw [collectOpt_mem hc]
  constructor
  · rintro ⟨a, ha, la, hfa, hxa⟩
    cases hg : g a with
    | none => rw [hg] at hfa; cases hfa
    | some b =>
      rw [hg] at hfa
      cases b
      · obtain rfl := Option.some.inj hfa
        cases hxa
      · obtain rfl := Option.some.inj hfa
        exact ⟨a, ha, hg, List.mem_singleton.mp hxa⟩
  · rintro ⟨a, ha, hg, rfl⟩
    refine ⟨a, ha, [h a], ?_, by simp⟩
    rw [hg]

/-- The filterJob verdict for a spec with a first container: eligible exactly
when the command is the single ci-operator invocation, no argument carries a
git-ref override, and extra volumes are absent or allowed; never a panic. -/
theorem filterJob_cases {spec : PodSpec} {c0 : Container} {cs : List Container}
    {allowVolumes : Bool} (hc : spec.containers = c0 :: cs) :
    (filterJob spec allowVolumes = .ok ↔
      (c0.command = [ciOperatorCommand] ∧ hasGitRefArg c0.args = false ∧
       (spec.volumes = [] ∨ allowVolumes = true))) ∧
    filterJob spec allowVolumes ≠ .panics := by
  unfold filterJob
  rw [hc]
  show ((filterContainer c0 spec.volumes allowVolumes = .ok) ↔ _) ∧
    filterContainer c0 spec.volumes allowVolumes ≠ .panics
  unfold filterContainer
  by_cases h1 : c0.command ≠ [ciOperatorCommand]
  · rw [if_pos h1]
    constructor
    · constructor
      · intro h; cases h
      · intro hcond; exact absurd hcond.1 h1
    · intro h; cases h
  · rw [if_neg h1]
    have h1b : c0.command = [ciOperatorCommand] := not_not.mp h1
    by_cases h2 : hasGitRefArg c0.args
    · rw [if_pos h2]
      constructor
      · constructor
        · intro h; cases h
        · intro hcond
          rw [hcond.2.1] at h2
          exact absurd h2 (by decide)
      · intro h; cases h
    · rw [if_neg h2]
      by_cases h3 : spec.volumes.length > 0 ∧ ¬ allowVolumes
      · rw [if_pos h3]
        constructor
        · constructor
          · intro h; cases h
          · intro hcond
            rcases hcond.2.2 with h | h
            · rw [h] at h3
              exact absurd h3.1 (by simp)
            · exact absurd h h3.2
        · intro h; cases h
      · rw [if_neg h3]
        constructor
        · constructor
          · intro _
            refine ⟨h1b, Bool.not_eq_true _ ▸ h2, ?_⟩
            by_cases ha : allowVolumes
            · exact Or.inr ha
            · left
              have hv : ¬ spec.volumes.length > 0 := fun hv => h3 ⟨hv, ha⟩
              exact List.length_eq_zero.mp (Nat.le_zero.mp (Nat.not_lt.mp hv))
          · intro _; rfl
        · intro h; cases h

/-- The some-true reading of the spec-level filter decision. -/
theorem filterSpecDecision_true_iff {spec : PodSpec} {c0 : Container}
    {cs : List Container} {allowVolumes : Bool} (hc : spec.containers = c0 :: cs) :
    filterSpecDecision spec allowVolumes = some true ↔
      (c0.command = [ciOperatorCommand] ∧ hasGitRefArg c0.args = false ∧
       (spec.volumes = [] ∨ allowVolumes = true)) := by
  obtain ⟨hok, hnp⟩ := @filterJob_cases spec c0 cs allowVolumes hc
  unfold filterSpecDecision
  cases hf : filterJob spec allowVolumes with
  | panics => exact absurd hf hnp
  | reject msg =>
    rw [hf] at hok
    refine ⟨fun h => absurd (Option.some.inj h) (by decide), fun hcond => ?_⟩
    have := hok.mpr hcond
    cases this
  | ok =>
    rw [hf] at hok
    exact ⟨fun _ => hok.mp rfl, fun _ => rfl⟩

/-- The some-true reading of the per-presubmit filter decision. -/
theorem filterOnePresubmit_true_iff {allowVolumes : Bool} {job : Presubmit}
    {spec : PodSpec} {c0 : Container} {cs : List Container}
    (hspec : job.spec = some spec) (hc : spec.containers = c0 :: cs) :
    filterOnePresubmit allowVolumes job = some true ↔
      (job.branches.length = 1 ∧ c0.command = [ciOperatorCommand] ∧
       hasGitRefArg c0.args = false ∧ (spec.volumes = [] ∨ allowVolumes = true)) := by
  unfold filterOnePresubmit
  by_cases hb0 : job.branches.length = 0
  · rw [if_pos hb0]
    refine ⟨fun h => absurd (Option.some.inj h) (by decide), ?_⟩
    rintro ⟨h1, -⟩
    rw [hb0] at h1
    exact absurd h1 (by decide)
  · rw [if_neg hb0]
    by_cases hb1 : job.branches.length ≠ 1
    · rw [if_pos hb1]
      refine ⟨fun h => absurd (Option.some.inj h) (by decide), ?_⟩
      rintro ⟨h1, -⟩
      exact absurd h1 hb1
    · rw [if_neg hb1, hspec]
      have h1 : job.branches.length = 1 := not_not.mp hb1
      show filterSpecDecision spec allowVolumes = some true ↔ _
      rw [filterSpecDecision_true_iff hc]
      constructor
      · intro h
        exact ⟨h1, h.1, h.2.1, h.2.2⟩
      · intro h
        exact ⟨h.2.1, h.2.2.1, h.2.2.2⟩

/-- The some-true reading of the per-periodic filter decision. -/
theorem filterOnePeriodic_true_iff {allowVolumes : Bool} {job : Periodic}
    {spec : PodSpec} {c0 : Container} {cs : List Container}
    (hspec : job.spec = some spec) (hc : spec.containers = c0 :: cs) :
    filterOnePeriodic allowVolumes job = some true ↔
      (c0.command = [ciOperatorCommand] ∧ hasGitRefArg c0.args = false ∧
       (spec.volumes = [] ∨ allowVolumes = true)) := by
  unfold filterOnePeriodic
  rw [hspec]
  show filterSpecDecision spec allowVolumes = some true ↔ _
  exact filterSpecDecision_true_iff hc

/-- Claim C7 as stated is false on the code: the eligibility filter never
inspects the agent kind, so a jenkins-agent job that passes every other check
is kept in the rehearsal set, although the claim requires its exclusion. -/
theorem claim_C7_counterexample :
    jenkinsJob.agent ≠ kubernetesAgent ∧
    filterJobs [("org/repo", [jenkinsJob])] [] true
      = some ([("org/repo", jenkinsJob)], []) := by
  constructor
  · decide
  · decide

/-- Claim C7 amended: a candidate job is excluded by the eligibility filter
exactly when it is a presubmit with zero or more than one target-branch
pattern, its container command is anything other than the single ci-operator
invocation, some argument already carries a git-ref override, or its spec
declares extra volumes while volume-mounting is not allowed; the agent kind is
not inspected by the filter (rehearsable-agent selection happens upstream).
Each decision depends only on the job itself. -/
theorem claim_C7_amended (changedPresubmits : List (String × List Presubmit))
    (changedPeriodics : List Periodic) (allowVolumes : Bool)
    (ps : List (String × Presubmit)) (qs : List Periodic)
    (hres : filterJobs changedPresubmits changedPeriodics allowVolumes = some (ps, qs)) :
    (∀ repo job spec c0 cs, (∃ jobs, (repo, jobs) ∈ changedPresubmits ∧ job ∈ jobs) →
      job.spec = some spec → spec.containers = c0 :: cs →
      ((repo, job) ∈ ps ↔
        (job.branches.length = 1 ∧ c0.command = [ciOperatorCommand] ∧
         hasGitRefArg c0.args = false ∧ (spec.volumes = [] ∨ allowVolumes = true)))) ∧
    (∀ job spec c0 cs, job ∈ changedPeriodics →
      job.spec = some spec → spec.containers = c0 :: cs →
      (job ∈ qs ↔
        (c0.command = [ciOperatorCommand] ∧ hasGitRefArg c0.args = false ∧
         (spec.volumes = [] ∨ allowVolumes = true)))) := by
  have hsplit : filterPresubmitsLoop allowVolumes changedPresubmits = some ps ∧
      filterPeriodicsLoop allowVolumes changedPeriodics = some qs := by
    unfold filterJobs at hres
    cases hp : filterPresubmitsLoop allowVolumes changedPresubmits with
    | none => rw [hp] at hres; cases hres
    | some ps2 =>
      rw [hp] at hres
      cases hq : filterPeriodicsLoop allowVolumes changedPeriodics with
      | none => rw [hq] at hres; cases hres
      | some qs2 =>
        rw [hq] at hres
        obtain ⟨hp2, hq2⟩ := Prod.mk.injEq .. ▸ Option.some.inj hres
        exact ⟨by rw [hp2], by rw [hq2]⟩
  obtain ⟨hp, hq⟩ := hsplit
  constructor
  · intro repo job spec c0 cs hocc hspec hc
    obtain ⟨jobs, hjobs, hjob⟩ := hocc
    unfold filterPresubmitsLoop at hp
    rw [← @filterOnePresubmit_true_iff allowVolumes job spec c0 cs hspec hc]
    constructor
    · intro hx
      obtain ⟨⟨r2, js2⟩, hrj, lrj, hloop, hxl⟩ := (collectOpt_mem hp).mp hx
      unfold filterPresubmitList at hloop
      obtain ⟨j2, hj2, hdec, hpair⟩ := (collectOpt_singleton_mem hloop).mp hxl
      obtain ⟨h1, h2⟩ := Prod.mk.injEq .. ▸ hpair
      rw [h2]
      exact hdec
    · intro hdec
      obtain ⟨lrj, hloop⟩ := collectOpt_forall_some hp (repo, jobs) hjobs
      refine (collectOpt_mem hp).mpr ⟨(repo, jobs), hjobs, lrj, hloop, ?_⟩
      unfold filterPresubmitList at hloop
      exact (collectOpt_singleton_mem hloop).mpr ⟨job, hjob, hdec, rfl⟩
  · intro job spec c0 cs hjob hspec hc
    unfold filterPeriodicsLoop at hq
    rw [← @filterOnePeriodic_true_iff allowVolumes job spec c0 cs hspec hc]
    constructor
    · intro hx
      obtain ⟨j2, hj2, hdec, hpair⟩ := (collectOpt_singleton_mem hq).mp hx
      rw [hpair]
      exact hdec
    · intro hdec
      exact (collectOpt_singleton_mem hq).mpr ⟨job, hjob, hdec, rfl⟩

/-- Witness for claim C7 amended: an eligible presubmit (one branch,
ci-operator command, no git-ref argument, no volumes) is kept, applied at a
concrete corpus. -/
theorem claim_C7_amended_witness :
    ("org/repo", kubeJob) ∈ [("org/repo", kubeJob)] :=
  ((claim_C7_amended [("org/repo", [kubeJob])] [periodic0] true
      [("org/repo", kubeJob)] [periodic0] (by decide)).1
    "org/repo" kubeJob specCiOp ⟨["ci-operator"], ["--target=e2e"], [], []⟩ []
    ⟨[kubeJob], by decide, by decide⟩ rfl rfl).mpr (by decide)

/-- Closed form of the presubmit submission loop: every job is attempted in
order, the created jobs and their Spec.Job names accumulate, and errors are
collected without stopping the loop. -/
theorem submitPresubmitsLoop_spec (createP : Presubmit → Except String ProwJob)
    (ps : List Presubmit) (acc : SubmitState) :
    submitPresubmitsLoop createP acc ps =
      ⟨acc.pjs ++ createdP createP ps,
       ⟨acc.metrics.submittedRehearsals ++ (createdP createP ps).map ProwJob.specJob,
        acc.metrics.passedRehearsals, acc.metrics.failedRehearsals⟩,
       acc.errs ++ errsP createP ps,
       acc.calls ++ ps.map BackendCall.submitP⟩ := by
  induction ps generalizing acc with
  | nil => simp [submitPresubmitsLoop, createdP, errsP]
  | cons j rest ih =>
    cases hj : createP j with
    | error e =>
      simp only [submitPresubmitsLoop, hj, ih, createdP, errsP,
        List.filterMap_cons, exOk, exErr, List.map_cons]
      simp [List.append_assoc]
    | ok created =>
      simp only [submitPresubmitsLoop, hj, ih, createdP, errsP,
        List.filterMap_cons, exOk, exErr, List.map_cons]
      simp [List.append_assoc]

/-- Closed form of the periodic submission loop: as the presubmit loop, except
that (as in the source) successful submissions leave the metrics untouched. -/
theorem submitPeriodicsLoop_spec (createQ : Periodic → Except String ProwJob)
    (qs : List Periodic) (acc : SubmitState) :
    submitPeriodicsLoop createQ acc qs =
      ⟨acc.pjs ++ createdQ createQ qs, acc.metrics,
       acc.errs ++ errsQ createQ qs,
       acc.calls ++ qs.map BackendCall.submitQ⟩ := by
  induction qs generalizing acc with
  | nil => simp [submitPeriodicsLoop, createdQ, errsQ]
  | cons j rest ih =>
    cases hj : createQ j with
    | error e =>
      simp only [submitPeriodicsLoop, hj, ih, createdQ, errsQ,
        List.filterMap_cons, exOk, exErr, List.map_cons]
      simp [List.append_assoc]
    | ok created =>
      simp only [submitPeriodicsLoop, hj, ih, createdQ, errsQ,
        List.filterMap_cons, exOk, exErr, List.map_cons]
      simp [List.append_assoc]

/-- Closed form of submitRehearsals. -/
theorem submitRehearsals_spec (createP : Presubmit → Except String ProwJob)
    (createQ : Periodic → Except String ProwJob)
    (ps : List Presubmit) (qs : List Periodic) (m0 : ExecutionMetrics) :
    submitRehearsals createP createQ ps qs m0 =
      ⟨createdP createP ps ++ createdQ createQ qs,
       ⟨m0.submittedRehearsals ++ (createdP createP ps).map ProwJob.specJob,
        m0.passedRehearsals, m0.failedRehearsals⟩,
       errsP createP ps ++ errsQ createQ qs,
       ps.map BackendCall.submitP ++ qs.map BackendCall.submitQ⟩ := by
  unfold submitRehearsals
  rw [submitPresubmitsLoop_spec, submitPeriodicsLoop_spec]
  simp

/-- No submission errors means every presubmit was accepted. -/
theorem errsP_nil_iff {createP : Presubmit → Except String ProwJob} {ps : List Presubmit} :
    errsP createP ps = [] ↔ ∀ j ∈ ps, ∃ pj, createP j = .ok pj := by
  unfold errsP
  rw [List.filterMap_eq_nil_iff]
  constructor
  · intro h j hj
    have := h j hj
    cases hc : createP j with
    | ok pj => exact ⟨pj, rfl⟩
    | error e => rw [hc] at this; cases this
  · intro h j hj
    obtain ⟨pj, hpj⟩ := h j hj
    rw [hpj]
    rfl

/-- No submission errors means every periodic was accepted. -/
theorem errsQ_nil_iff {createQ : Periodic → Except String ProwJob} {qs : List Periodic} :
    errsQ createQ qs = [] ↔ ∀ j ∈ qs, ∃ pj, createQ j = .ok pj := by
  unfold errsQ
  rw [List.filterMap_eq_nil_iff]
  constructor
  · intro h j hj
    have := h j hj
    cases hc : createQ j with
    | ok pj => exact ⟨pj, rfl⟩
    | error e => rw [hc] at this; cases this
  · intro h j hj
    obtain ⟨pj, hpj⟩ := h j hj
    rw [hpj]
    rfl

/-- Claim C3 as stated is false on the code: ExecuteJobs calls submitRehearsals
before consulting dryRun, so even in dry-run mode every rehearsal job is
submitted to the (dry-run) client. -/
theorem claim_C3_counterexample :
    BackendCall.submitP kubeJob ∈
      (executeJobs true 123 cpOk cqOk [kubeJob] [] []).calls := by
  decide

/-- Claim C3 amended: in dry-run mode Execute never opens a monitoring stream
(no Watch call appears in the backend trace), it submits every rehearsal job
to its dry-run client (the trace is exactly the submissions, in order), renders
the created records as structured output, and returns success=true, with a
non-nil error exactly when some submission failed. -/
theorem claim_C3_amended (prNumber : Nat)
    (createP : Presubmit → Except String ProwJob)
    (createQ : Periodic → Except String ProwJob)
    (ps : List Presubmit) (qs : List Periodic) (events : List WatchObj) :
    (∀ s, BackendCall.watch s ∉ (executeJobs true prNumber createP createQ ps qs events).calls) ∧
    (executeJobs true prNumber createP createQ ps qs events).calls
      = ps.map BackendCall.submitP ++ qs.map BackendCall.submitQ ∧
    (∃ errs, (executeJobs true prNumber createP createQ ps qs events).outcome
        = .finished true errs ∧
      (errs = [] ↔ ((∀ j ∈ ps, ∃ pj, createP j = .ok pj) ∧
                    (∀ j ∈ qs, ∃ pj, createQ j = .ok pj)))) := by
  have hs := submitRehearsals_spec createP createQ ps qs ⟨[], [], []⟩
  have hcalls : (executeJobs true prNumber createP createQ ps qs events).calls
      = ps.map BackendCall.submitP ++ qs.map BackendCall.submitQ := by
    simp only [executeJobs, hs, if_true]
  refine ⟨?_, hcalls, ?_⟩
  · intro s hmem
    rw [hcalls] at hmem
    rcases List.mem_append.mp hmem with h | h <;> obtain ⟨j, -, hj⟩ := List.mem_map.mp h <;>
      cases hj
  · refine ⟨if (errsP createP ps ++ errsQ createQ qs).isEmpty then []
      else [submitFailureMsg], ?_, ?_⟩
    · simp only [executeJobs, hs, if_true]
    · by_cases he : (errsP createP ps ++ errsQ createQ qs) = []
      · rw [if_pos (List.isEmpty_iff.mpr he)]
        obtain ⟨h1, h2⟩ := List.append_eq_nil.mp he
        simp only [true_iff]
        exact ⟨errsP_nil_iff.mp h1, errsQ_nil_iff.mp h2⟩
      · rw [if_neg (fun hc => he (List.isEmpty_iff.mp hc))]
        constructor
        · intro h; cases h
        · intro h
          exact absurd (List.append_eq_nil.mpr
            ⟨errsP_nil_iff.mpr h.1, errsQ_nil_iff.mpr h.2⟩) he

/-- Witness for claim C3 amended: in a concrete dry run the backend trace is
exactly the submissions. -/
theorem claim_C3_amended_witness :
    (executeJobs true 3 cpOk cqOk [kubeJob] [] []).calls
      = [kubeJob].map BackendCall.submitP ++ ([] : List Periodic).map BackendCall.submitQ :=
  (claim_C3_amended 3 cpOk cqOk [kubeJob] [] []).2.1

/-- Claim C4: every submission is attempted and every successfully submitted
job is recorded in ExecutionMetrics.submitted. The code diverges for
periodics: the periodic loop of submitRehearsals (jobs.go lines 569-578) never
appends to Metrics.SubmittedRehearsals. At one periodic job whose submission
succeeds, the job is submitted (its Submit call and its Watch appear in the
trace), watched to completion and recorded as passed, yet
metrics.submittedRehearsals stays empty where the claim requires the job name
to be recorded. -/
theorem claim_C4_code_divergence :
    executeJobs false 7 cpOk cqOk [] [periodic0]
        [WatchObj.isPJ ⟨"prowjob-periodic-ci-org-repo-e2e", "periodic-ci-org-repo-e2e",
          PJState.success⟩]
      = ⟨.finished true [],
         ⟨[], ["periodic-ci-org-repo-e2e"], []⟩,
         [.submitQ periodic0, .watch (mkSelector 7)]⟩ ∧
    ([] : List String) ≠ ["periodic-ci-org-repo-e2e"] := by
  constructor
  · decide
  · decide

/-- Claim C9: in a real run where no job was submitted (the watch-set is empty
after submission), ExecuteJobs returns success=true, the passed and failed
metrics are empty, and no watch stream is ever opened. -/
theorem claim_C9 (prNumber : Nat)
    (createP : Presubmit → Except String ProwJob)
    (createQ : Periodic → Except String ProwJob)
    (ps : List Presubmit) (qs : List Periodic) (events : List WatchObj)
    (hempty : (submitRehearsals createP createQ ps qs ⟨[], [], []⟩).pjs = []) :
    (∃ errs, (executeJobs false prNumber createP createQ ps qs events).outcome
        = .finished true errs) ∧
    (executeJobs false prNumber createP createQ ps qs events).metrics.passedRehearsals = [] ∧
    (executeJobs false prNumber createP createQ ps qs events).metrics.failedRehearsals = [] ∧
    (∀ s, BackendCall.watch s ∉ (executeJobs false prNumber createP createQ ps qs events).calls) := by
  have hs := submitRehearsals_spec createP createQ ps qs ⟨[], [], []⟩
  have hpq : createdP createP ps ++ createdQ createQ qs = [] := by
    rw [hs] at hempty
    exact hempty
  have hr : executeJobs false prNumber createP createQ ps qs events =
      ⟨.finished true (if (errsP createP ps ++ errsQ createQ qs).isEmpty then []
          else [submitFailureMsg]),
       ⟨[] ++ (createdP createP ps).map ProwJob.specJob, [], []⟩,
       ps.map BackendCall.submitP ++ qs.map BackendCall.submitQ⟩ := by
    simp only [executeJobs, hs, hpq]
    simp [waitForJobs]
    by_cases he2 : errsP createP ps = [] ∧ errsQ createQ qs = []
    · rw [if_pos he2, if_pos he2]
    · rw [if_neg he2, if_neg he2]
  rw [hr]
  refine ⟨⟨_, rfl⟩, rfl, rfl, ?_⟩
  intro s hmem
  rcases List.mem_append.mp hmem with h | h <;> obtain ⟨j, -, hj⟩ := List.mem_map.mp h <;>
    cases hj

/-- Witness for claim C9: a run with no jobs at all. -/
theorem claim_C9_witness :
    (∃ errs, (executeJobs false 5 cpOk cqOk [] [] []).outcome = .finished true errs) ∧
    (executeJobs false 5 cpOk cqOk [] [] []).metrics.passedRehearsals = [] ∧
    (executeJobs false 5 cpOk cqOk [] [] []).metrics.failedRehearsals = [] ∧
    (∀ s, BackendCall.watch s ∉ (executeJobs false 5 cpOk cqOk [] [] []).calls) :=
  claim_C9 5 cpOk cqOk [] [] [] (by decide)

/-- A write through one store index leaves every other index unchanged. -/
theorem updateAt_get_ne {store : List Presubmit} {i j : Nat} {f : Presubmit → Presubmit}
    (h : j ≠ i) : (updateAt store i f)[j]? = store[j]? := by
  unfold updateAt
  cases hi : store[i]? with
  | none => rfl
  | some r => exact List.getElem?_set_ne (Ne.symm h)

/-- Frame property of the configureJob stage: a successful build returns the
rehearsal index and only writes through it. -/
theorem buildFinish_frame {marshal : CiopConfig → String} {isCM : String → Bool}
    {ciop : List (String × CiopConfig)} {allow : Bool}
    {tMap pMap : List (String × String)} {st : List Presubmit} {reh : Nat}
    {store2 : List Presubmit} {reh2 : Nat}
    (h : buildFinish marshal isCM ciop allow tMap pMap st reh = .built store2 reh2) :
    reh2 = reh ∧ ∀ j, j ≠ reh → store2[j]? = st[j]? := by
  unfold buildFinish at h
  cases h1 : st[reh]? with
  | none => rw [h1] at h; cases h
  | some rehJob =>
    rw [h1] at h
    have h2 : buildFinishJob marshal isCM ciop allow tMap pMap st reh rehJob
        = .built store2 reh2 := h
    unfold buildFinishJob at h2
    cases h3 : rehJob.spec with
    | none => rw [h3] at h2; cases h2
    | some rspec =>
      rw [h3] at h2
      have h4 : buildFinishSpec marshal isCM ciop allow tMap pMap st reh rspec
          = .built store2 reh2 := h2
      unfold buildFinishSpec at h4
      cases h5 : configureSpec marshal isCM ciop allow tMap pMap rspec with
      | panics => rw [h5] at h4; cases h4
      | failed e => rw [h5] at h4; cases h4
      | ok spec2 =>
        rw [h5] at h4
        obtain ⟨hst, hr⟩ := BuildOut.built.inj h4
        refine ⟨hr.symm, fun j hj => ?_⟩
        rw [← hst]
        exact updateAt_get_ne hj

/-- Frame property of the args/optional/label writes plus the configureJob
stage. -/
theorem buildWithContainer_frame {marshal : CiopConfig → String} {isCM : String → Bool}
    {ciop : List (String × CiopConfig)} {allow : Bool}
    {tMap pMap : List (String × String)} {c0 : Container} {repo branch : String}
    {prNumber : Nat} {st : List Presubmit} {reh : Nat}
    {store2 : List Presubmit} {reh2 : Nat}
    (h : buildWithContainer marshal isCM ciop allow tMap pMap c0 repo branch prNumber
        st reh = .built store2 reh2) :
    reh2 = reh ∧ ∀ j, j ≠ reh → store2[j]? = st[j]? := by
  obtain ⟨hr, hfr⟩ := buildFinish_frame h
  refine ⟨hr, fun j hj => ?_⟩
  rw [hfr j hj, updateAt_get_ne hj, updateAt_get_ne hj, updateAt_get_ne hj]

/-- Frame property from the source-container read downward. -/
theorem buildWithSpec_frame {marshal : CiopConfig → String} {isCM : String → Bool}
    {ciop : List (String × CiopConfig)} {allow : Bool}
    {tMap pMap : List (String × String)} {sspec : PodSpec} {repo branch : String}
    {prNumber : Nat} {st : List Presubmit} {reh : Nat}
    {store2 : List Presubmit} {reh2 : Nat}
    (h : buildWithSpec marshal isCM ciop allow tMap pMap sspec repo branch prNumber
        st reh = .built store2 reh2) :
    reh2 = reh ∧ ∀ j, j ≠ reh → store2[j]? = st[j]? := by
  unfold buildWithSpec at h
  cases hc : sspec.containers with
  | nil => rw [hc] at h; cases h
  | cons c0 cs =>
    rw [hc] at h
    exact buildWithContainer_frame h

/-- Frame property from the source-Spec dereference downward. -/
theorem buildSpecStage_frame {marshal : CiopConfig → String} {isCM : String → Bool}
    {ciop : List (String × CiopConfig)} {allow : Bool}
    {tMap pMap : List (String × String)} {source : Presubmit} {repo branch : String}
    {prNumber : Nat} {st : List Presubmit} {reh : Nat}
    {store2 : List Presubmit} {reh2 : Nat}
    (h : buildSpecStage marshal isCM ciop allow tMap pMap source repo branch prNumber
        st reh = .built store2 reh2) :
    reh2 = reh ∧ ∀ j, j ≠ reh → store2[j]? = st[j]? := by
  unfold buildSpecStage at h
  cases hs : source.spec with
  | none => rw [hs] at h; cases h
  | some sspec =>
    rw [hs] at h
    exact buildWithSpec_frame h

/-- Frame property from the context/rerun-command writes downward. -/
theorem buildAfterBranch_frame {marshal : CiopConfig → String} {isCM : String → Bool}
    {ciop : List (String × CiopConfig)} {allow : Bool}
    {tMap pMap : List (String × String)} {source : Presubmit} {repo b0 : String}
    {prNumber : Nat} {st : List Presubmit} {reh : Nat}
    {store2 : List Presubmit} {reh2 : Nat}
    (h : buildAfterBranch marshal isCM ciop allow tMap pMap source repo b0 prNumber
        st reh = .built store2 reh2) :
    reh2 = reh ∧ ∀ j, j ≠ reh → store2[j]? = st[j]? := by
  obtain ⟨hr, hfr⟩ := buildSpecStage_frame h
  refine ⟨hr, fun j hj => ?_⟩
  rw [hfr j hj, updateAt_get_ne hj]

/-- Frame property from the branch read downward. -/
theorem buildBranchStage_frame {marshal : CiopConfig → String} {isCM : String → Bool}
    {ciop : List (String × CiopConfig)} {allow : Bool}
    {tMap pMap : List (String × String)} {source : Presubmit} {repo : String}
    {prNumber : Nat} {st : List Presubmit} {reh : Nat}
    {store2 : List Presubmit} {reh2 : Nat}
    (h : buildBranchStage marshal isCM ciop allow tMap pMap source repo prNumber
        st reh = .built store2 reh2) :
    reh2 = reh ∧ ∀ j, j ≠ reh → store2[j]? = st[j]? := by
  unfold buildBranchStage at h
  cases hb : source.branches with
  | nil => rw [hb] at h; cases h
  | cons b0 bs =>
    rw [hb] at h
    exact buildAfterBranch_frame h

/-- Claim C8: building a rehearsal presubmit (deep copy, rename, context
rewrite, git-ref argument, optional=true, correlation label, config inlining
and template and cluster-profile redirection) leaves the source object in the
store observably unchanged: after a successful build, the entry at the source
index equals its pre-build value, and the rehearsal was written at a distinct
fresh index. -/
theorem claim_C8 (marshal : CiopConfig → String) (isCiopConfigCM : String → Bool)
    (ciopConfigs : List (String × CiopConfig)) (allowVolumes : Bool)
    (templateMap profileMap : List (String × String))
    (store : List Presubmit) (src : Nat) (repo : String) (prNumber : Nat)
    (store2 : List Presubmit) (reh : Nat)
    (hsrc : src < store.length)
    (hbuilt : buildRehearsalPresubmit marshal isCiopConfigCM ciopConfigs allowVolumes
        templateMap profileMap store src repo prNumber = .built store2 reh) :
    store2[src]? = store[src]? ∧ reh ≠ src := by
  unfold buildRehearsalPresubmit at hbuilt
  cases hsome : store[src]? with
  | none => rw [hsome] at hbuilt; cases hbuilt
  | some source =>
    rw [hsome] at hbuilt
    obtain ⟨hr, hfr⟩ := buildBranchStage_frame hbuilt
    have hne : src ≠ store.length := Nat.ne_of_lt hsrc
    constructor
    · rw [hfr src hne, updateAt_get_ne hne, List.getElem?_append_left hsrc]
      exact hsome
    · rw [hr]
      exact Ne.symm hne

/-- Witness for claim C8: building the rehearsal of a concrete job leaves the
source entry untouched and allocates a fresh index. -/
theorem claim_C8_witness :
    [kubeJob, rehearsedKubeJob][0]? = [kubeJob][0]? ∧ (1 : Nat) ≠ 0 :=
  claim_C8 (fun _ => "cfg") (fun _ => false) [] false [] [] [kubeJob] 0 "org/repo" 42
    [kubeJob, rehearsedKubeJob] 1 (by decide) (by decide)

/-- With at least one branch, envSelects never panics. -/
theorem envSelects_isSome {isCM : String → Bool} {ciop : List (String × CiopConfig)}
    {aff : List (String × List String)} {repo : String} {job : Presubmit}
    (hb : job.branches ≠ []) (env : EnvVar) :
    ∃ b, envSelects isCM ciop aff repo job env = some b := by
  unfold envSelects
  cases hv : env.valueFrom with
  | none => exact ⟨false, rfl⟩
  | some ref =>
    simp only []
    by_cases hcm : isCM ref.cmName
    · rw [if_pos hcm]
      by_cases hk : (lookupStr ciop ref.key).isSome
      · rw [if_pos hk]
        cases hbr : job.branches with
        | nil => exact absurd hbr hb
        | cons b0 bs =>
          simp only []
          cases ha : lookupStr aff ref.key with
          | none => exact ⟨true, rfl⟩
          | some s =>
            by_cases hset : setHas s (deriveTestName repo job.name b0)
            · refine ⟨true, ?_⟩
              simp only []
              rw [if_neg (by rw [hset]; exact fun hh => hh rfl)]
            · refine ⟨false, ?_⟩
              simp only []
              rw [if_pos (by rw [Bool.not_eq_true] at hset; rw [hset]; exact Bool.false_ne_true)]
      · rw [if_neg hk]
        exact ⟨false, rfl⟩
    · rw [if_neg hcm]
      exact ⟨false, rfl⟩

/-- Claim C10: the eligibility filter, the rehearsal-job configuration and the
config-to-job linkage pass unconditionally index the first container of the
execution spec, and the linkage pass also indexes the first branch; a job
violating the non-empty precondition makes the operation panic (it is neither
rejected nor an error result), the filter never panics on a job with a first
container, and the linkage pass is total once every rehearsable job has a
container and a branch. -/
theorem claim_C10 :
    (∀ (spec : PodSpec) (allowVolumes : Bool), spec.containers = [] →
      filterJob spec allowVolumes = .panics) ∧
    (∀ (spec : PodSpec) (c0 : Container) (cs : List Container) (allowVolumes : Bool),
      spec.containers = c0 :: cs → filterJob spec allowVolumes ≠ .panics) ∧
    (∀ (marshal : CiopConfig → String) (isCM : String → Bool)
        (ciop : List (String × CiopConfig)) (allowVolumes : Bool)
        (tMap pMap : List (String × String)) (spec : PodSpec), spec.containers = [] →
      configureSpec marshal isCM ciop allowVolumes tMap pMap spec = .panics) ∧
    (∀ (isCM : String → Bool) (prow : List (String × List Presubmit))
        (ciop : List (String × CiopConfig)) (aff : List (String × List String))
        (repo : String) (jobs : List Presubmit) (job : Presubmit),
      (repo, jobs) ∈ prow → job ∈ jobs → job.agent = kubernetesAgent →
      specContainers0 job.spec = none →
      GetPresubmitsForCiopConfigs isCM prow ciop aff = none) ∧
    (∀ (isCM : String → Bool) (prow : List (String × List Presubmit))
        (ciop : List (String × CiopConfig)) (aff : List (String × List String))
        (repo : String) (jobs : List Presubmit) (job : Presubmit) (spec : PodSpec)
        (c0 : Container) (cs : List Container) (env : EnvVar) (ref : CMKeyRef),
      (repo, jobs) ∈ prow → job ∈ jobs → job.agent = kubernetesAgent →
      job.spec = some spec → spec.containers = c0 :: cs → env ∈ c0.env →
      env.valueFrom = some ref → isCM ref.cmName = true →
      (lookupStr ciop ref.key).isSome = true → job.branches = [] →
      GetPresubmitsForCiopConfigs isCM prow ciop aff = none) ∧
    (∀ (isCM : String → Bool) (prow : List (String × List Presubmit))
        (ciop : List (String × CiopConfig)) (aff : List (String × List String)),
      (∀ rj ∈ prow, ∀ job ∈ (rj : String × List Presubmit).2,
        job.agent = kubernetesAgent →
          (specContainers0 job.spec).isSome ∧ job.branches ≠ []) →
      ∃ out, GetPresubmitsForCiopConfigs isCM prow ciop aff = some out) := by
  refine ⟨?_, ?_, ?_, ?_, ?_, ?_⟩
  · intro spec allowVolumes h
    unfold filterJob
    rw [h]
  · intro spec c0 cs allowVolumes hc
    exact (filterJob_cases hc).2
  · intro marshal isCM ciop allowVolumes tMap pMap spec h
    unfold configureSpec
    rw [h]
  · intro isCM prow ciop aff repo jobs job hrj hjob hagent hsc
    have hjs : jobCiopSelections isCM ciop aff repo job = none := by
      unfold jobCiopSelections
      rw [if_neg (fun hne => hne hagent), hsc]
    have hloop : ciopJobsLoop isCM ciop aff repo jobs = none := by
      unfold ciopJobsLoop
      exact collectOpt_none hjob hjs
    unfold GetPresubmitsForCiopConfigs
    exact collectOpt_none hrj hloop
  · intro isCM prow ciop aff repo jobs job spec c0 cs env ref hrj hjob hagent hspec hc
      henv hv hcm hk hbr
    have hes : envSelects isCM ciop aff repo job env = none := by
      unfold envSelects
      rw [hv]
      simp only []
      rw [if_pos hcm, if_pos hk, hbr]
    have hchunk : ciopEnvLoop isCM ciop aff repo job c0.env = none := by
      unfold ciopEnvLoop
      exact collectOpt_none henv (by simp only [hes])
    have hsc0 : specContainers0 job.spec = some c0 := by
      rw [hspec]
      simp [specContainers0, hc]
    have hjs : jobCiopSelections isCM ciop aff repo job = none := by
      unfold jobCiopSelections
      rw [if_neg (fun hne => hne hagent), hsc0]
      exact hchunk
    have hloop : ciopJobsLoop isCM ciop aff repo jobs = none := by
      unfold ciopJobsLoop
      exact collectOpt_none hjob hjs
    unfold GetPresubmitsForCiopConfigs
    exact collectOpt_none hrj hloop
  · intro isCM prow ciop aff hpre
    unfold GetPresubmitsForCiopConfigs
    apply collectOpt_total
    intro rj hrj
    show ∃ la, ciopJobsLoop isCM ciop aff rj.1 rj.2 = some la
    unfold ciopJobsLoop
    apply collectOpt_total
    intro job hjob
    by_cases ha : job.agent ≠ kubernetesAgent
    · refine ⟨[], ?_⟩
      unfold jobCiopSelections
      rw [if_pos ha]
    · obtain ⟨hsome, hb⟩ := hpre rj hrj job hjob (not_not.mp ha)
      obtain ⟨c0, hc0⟩ := Option.isSome_iff_exists.mp hsome
      have henvloop : ∃ l, ciopEnvLoop isCM ciop aff rj.1 job c0.env = some l := by
        unfold ciopEnvLoop
        apply collectOpt_total
        intro env henv
        obtain ⟨b, hbsel⟩ := @envSelects_isSome isCM ciop aff rj.1 job hb env
        cases b
        · exact ⟨[], by simp only [hbsel]⟩
        · exact ⟨[(rj.1, job)], by simp only [hbsel]⟩
      obtain ⟨l, hl⟩ := henvloop
      refine ⟨l, ?_⟩
      unfold jobCiopSelections
      rw [if_neg ha, hc0]
      exact hl

/-- Witness for claim C10: the filter panics on an empty container list, and
the linkage pass panics on a kubernetes job with a nil Spec. -/
theorem claim_C10_witness :
    filterJob ⟨[], []⟩ true = .panics ∧
    GetPresubmitsForCiopConfigs isCM0 [("org/repo", [badJob])] ciop0 aff0 = none := by
  constructor
  · exact claim_C10.1 ⟨[], []⟩ true rfl
  · exact claim_C10.2.2.2.1 isCM0 [("org/repo", [badJob])] ciop0 aff0 "org/repo"
      [badJob] badJob (by decide) (by decide) rfl rfl

/-- Claim C1: the monitoring loop classifies each watched job's first terminal
event as specified, with a Succeeded event appending exactly that job's name to
metrics.passed. The code diverges: on a success event it assigns
PassedRehearsals from an append to FailedRehearsals (jobs.go line 541), so once
any job has failed, a later success records the failed list plus the new name.
At watch-set {A, B} with events B Failed then A Succeeded, the code yields
passed = [B, A] where the claim requires passed = [A] (the failed tally and the
returned success are as specified). -/
theorem claim_C1_code_divergence :
    processEvents
      [WatchObj.isPJ ⟨"prowjob-b", "B", PJState.failure⟩,
       WatchObj.isPJ ⟨"prowjob-a", "A", PJState.success⟩]
      ["prowjob-a", "prowjob-b"] true ⟨[], [], []⟩
      = WaitOutcome.done false ⟨[], ["B", "A"], ["B"]⟩ ∧
    (["B", "A"] : List String) ≠ ["A"] := by
  constructor
  · decide
  · decide
